import Mathlib

/-!
# Verification of the opening-practice session engine

A shallow embedding, in Lean 4, of the core logic of the chess-opening
trainer: the move-statistics engine (`buildRankedMoves`,
`chooseWeightedMove`, `buildMoveReview`, `accuracyFromGames`), the
accuracy tracker, the castling-normalisation of coordinate-move tokens,
the undo/truncation logic of the history manager, and the
identifier-gated asynchronous continuations of the session controller.

Conventions used throughout:
* JavaScript numbers holding game counts are embedded as `Nat`;
  frequency rates (quotients of counts) as `ℚ`; the log-scale accuracy
  arithmetic (`Math.log10`) as exact real arithmetic over `ℝ`.
* `Math.random()` is made explicit as a parameter `u : ℚ` injected into
  `chooseWeightedMove` (the uniform draw), so the function is a pure
  function of the draw.
* The external rules-and-notation engine (move legality, SAN, game-over
  detection) is out of scope per the specification; functions that
  consult it are parametrised over it, and the history-replay model uses
  only the fact that the side to move alternates with each applied move.
-/

/-- Player color, `"w" | "b"` in the source. -/
inductive PlayerColor where
  | w
  | b
deriving DecidableEq, Repr

/-- Opening preset catalog entry (`OpeningPreset` in the source). -/
structure OpeningPreset where
  id : String
  name : String
  description : String
  seedMoves : List String
  userColor : PlayerColor
deriving DecidableEq, Repr

/-- Game-speed category (`SpeedOption` in the source). -/
inductive SpeedOption where
  | blitz
  | rapid
  | classical
deriving DecidableEq, Repr

/-- A candidate move in a statistics snapshot (`ExplorerMove`). -/
structure ExplorerMove where
  uci : String
  san : String
  white : Nat
  draws : Nat
  black : Nat
deriving DecidableEq, Repr

/-- A statistics snapshot (`ExplorerResponse`); the optional `opening`
metadata field is unused by the engine and omitted. -/
structure ExplorerResponse where
  white : Nat
  draws : Nat
  black : Nat
  moves : List ExplorerMove
deriving DecidableEq, Repr

/-- Immutable per-session configuration (`SessionConfig`). -/
structure SessionConfig where
  opening : OpeningPreset
  elo : Nat
  eloRatings : String
  speed : SpeedOption
  botMoveThresholdPercent : ℚ
  alwaysPlayMostCommonMove : Bool

/-- A ranked candidate move (`RankedMove`). -/
structure RankedMove where
  rank : Nat
  uci : String
  san : String
  games : Nat
  rate : ℚ
deriving DecidableEq, Repr

/-- The relevant fields of a rule-engine `Move` object (chess.js):
origin square, destination square, optional promotion letter, SAN text
and the color of the mover. -/
structure Move where
  color : PlayerColor
  fromSquare : String
  toSquare : String
  promotion : Option String
  san : String
deriving DecidableEq, Repr

/-- Review of a played user move (`MoveReview`); the grade is one of the
string literals `"!!"`, `"✓"`, `"x"` as in the source. -/
structure MoveReview where
  sideToMove : PlayerColor
  playedSan : String
  playedRank : Option Nat
  playedRate : ℚ
  grade : String
  bestMove : Option RankedMove
  alternatives : List RankedMove
  rankedMoves : List RankedMove
  totalGames : Nat
deriving DecidableEq, Repr

/-- `HIGH_ELO_RATINGS` constant. -/
def HIGH_ELO_RATINGS : String := "2000,2200,2500"

/-- `ALTERNATIVE_RATE` constant (0.1). -/
def ALTERNATIVE_RATE : ℚ := 0.1

/-- `normalizeCastlingUci`: lower-case the token and rewrite the four
king-castling encodings to the king-moves-two-squares form. -/
def normalizeCastlingUci (uci : String) : String :=
  let normalized := uci.toLower
  if normalized = "e1h1" then "e1g1"
  else if normalized = "e1a1" then "e1c1"
  else if normalized = "e8h8" then "e8g8"
  else if normalized = "e8a8" then "e8c8"
  else normalized

/-- `toUci`: serialise a rule-engine move back to a normalised
coordinate token (`${move.from}${move.to}${move.promotion ?? ""}`). -/
def toUci (move : Move) : String :=
  normalizeCastlingUci (move.fromSquare ++ move.toSquare ++ move.promotion.getD "")

/-- Total games recorded for one candidate move
(`move.white + move.draws + move.black`). -/
def mGames (move : ExplorerMove) : Nat :=
  move.white + move.draws + move.black

/-- `buildRankedMoves`: discard zero-game candidates, stable-sort
descending by game count, assign 1-based ranks, and compute each rate
against the aggregate total (or, if that is not positive, the sum of the
retained candidates' game counts; rate 0 if the denominator is 0).
The JavaScript `Array.prototype.sort` with comparator
`(a, b) => b.games - a.games` is a stable descending sort by game count,
embedded as `List.mergeSort` with `le a b := b.games ≤ a.games`. -/
def buildRankedMoves (explorer : ExplorerResponse) : List RankedMove :=
  let totalAtPosition := explorer.white + explorer.draws + explorer.black
  let baseMoves :=
    ((explorer.moves.map fun move => (move, mGames move)).filter
      fun entry => 0 < entry.2).mergeSort fun a b => decide (b.2 ≤ a.2)
  let denominator :=
    if 0 < totalAtPosition then totalAtPosition
    else (baseMoves.map fun entry => entry.2).sum
  baseMoves.enum.map fun p =>
    { rank := p.1 + 1
      uci := normalizeCastlingUci p.2.1.uci
      san := p.2.1.san
      games := p.2.2
      rate := if 0 < denominator then (p.2.2 : ℚ) / (denominator : ℚ) else 0 }

/-- A weighted candidate (`WeightedMove`). -/
structure WeightedMove where
  move : ExplorerMove
  games : Nat
  rate : ℚ
deriving DecidableEq, Repr

/-- Result record of `chooseWeightedMove`. -/
structure ChooseResult where
  selected : Option ExplorerMove
  selectedRate : ℚ
  usedFallbackPool : Bool
deriving DecidableEq, Repr

/-- The roulette walk of `chooseWeightedMove`: subtract each entry's
weight from the running threshold and stop at the first entry at which
the remainder drops to zero or below (`none` if the walk falls off the
end of the pool). -/
def selectByWeight (threshold : ℚ) : List WeightedMove → Option WeightedMove
  | [] => none
  | entry :: rest =>
    if threshold - entry.games ≤ 0 then some entry
    else selectByWeight (threshold - entry.games) rest

/-- Attach the frequency rate to a `(move, games)` candidate pair (the
object `{ move, games, rate }` built inside `chooseWeightedMove`). -/
def toWeighted (denominator : Nat) (entry : ExplorerMove × Nat) : WeightedMove :=
  { move := entry.1
    games := entry.2
    rate := if 0 < denominator then (entry.2 : ℚ) / (denominator : ℚ) else 0 }

/-- `chooseWeightedMove`: under `alwaysPlayMostCommonMove` pick the
first candidate with the largest game count; otherwise filter the
nonzero candidates by the rate threshold, fall back to the full nonzero
pool when the filter is empty, and perform stake-weighted roulette
selection with the injected uniform draw `u` (the source's
`Math.random()`). -/
def chooseWeightedMove (explorer : ExplorerResponse) (minMoveRatePercent : ℚ)
    (alwaysPlayMostCommonMove : Bool) (u : ℚ) : ChooseResult :=
  let totalAtPosition := explorer.white + explorer.draws + explorer.black
  let baseEntries :=
    (explorer.moves.map fun move => (move, mGames move)).filter fun entry => 0 < entry.2
  let denominator :=
    if 0 < totalAtPosition then totalAtPosition
    else (baseEntries.map fun entry => entry.2).sum
  let weightedMoves : List WeightedMove := baseEntries.map (toWeighted denominator)
  if alwaysPlayMostCommonMove then
    match weightedMoves with
    | [] => { selected := none, selectedRate := 0, usedFallbackPool := false }
    | first :: rest =>
      let mostCommon := rest.foldl
        (fun best current => if best.games < current.games then current else best) first
      { selected := some mostCommon.move
        selectedRate := mostCommon.rate
        usedFallbackPool := false }
  else
    let minRate := max 0 minMoveRatePercent / 100
    let filtered := weightedMoves.filter fun entry => minRate < entry.rate
    let pool := if 0 < filtered.length then filtered else weightedMoves
    match pool with
    | [] => { selected := none, selectedRate := 0, usedFallbackPool := false }
    | p0 :: ps =>
      let totalWeight := ((p0 :: ps).map fun entry => entry.games).sum
      if totalWeight ≤ 0 then
        { selected := some p0.move
          selectedRate := p0.rate
          usedFallbackPool := filtered.length = 0 }
      else
        match selectByWeight (u * totalWeight) (p0 :: ps) with
        | some entry =>
          { selected := some entry.move
            selectedRate := entry.rate
            usedFallbackPool := filtered.length = 0 }
        | none =>
          { selected := some ((p0 :: ps).getLast (List.cons_ne_nil p0 ps)).move
            selectedRate := ((p0 :: ps).getLast (List.cons_ne_nil p0 ps)).rate
            usedFallbackPool := filtered.length = 0 }

/-- `buildMoveReview`: look the played move up in the ranked list, grade
it (`"!!"` when ranked and within 0.05 of the top rate, else `"✓"` when
its own rate reaches `ALTERNATIVE_RATE`, else `"x"`), and collect the
alternatives (every ranked move except rank 1 whose rate reaches
`ALTERNATIVE_RATE`). -/
def buildMoveReview (rankedMoves : List RankedMove) (playedMove : Move)
    (sideToMove : PlayerColor) : MoveReview :=
  let playedUci := toUci playedMove
  let playedEntry := rankedMoves.find? fun entry => entry.uci = playedUci
  let playedRank := playedEntry.map fun entry => entry.rank
  let playedRate := (playedEntry.map fun entry => entry.rate).getD 0
  let topRate := (rankedMoves.head?.map fun entry => entry.rate).getD 0
  let grade : String :=
    if playedEntry.isSome ∧ topRate - playedRate ≤ (0.05 : ℚ) then "!!"
    else if ALTERNATIVE_RATE ≤ playedRate then "✓"
    else "x"
  { sideToMove
    playedSan := playedMove.san
    playedRank
    playedRate
    grade
    bestMove := rankedMoves.head?
    alternatives := rankedMoves.filter fun entry =>
      entry.rank ≠ 1 ∧ ALTERNATIVE_RATE ≤ entry.rate
    rankedMoves
    totalGames := (rankedMoves.map fun entry => entry.games).sum }

/-- `getExplorerTotalGames`: the aggregate total at the position, or the
sum of the candidates' own counts when the aggregate is not positive. -/
def getExplorerTotalGames (explorer : ExplorerResponse) : Nat :=
  let total := explorer.white + explorer.draws + explorer.black
  if 0 < total then total
  else (explorer.moves.map fun move => move.white + move.draws + move.black).sum

/-- `String.toLower` unfolded to a plain `List.map` over the character
data, so that concrete tokens evaluate. -/
theorem toLower_eq_map_data (s : String) : s.toLower = ⟨s.data.map Char.toLower⟩ :=
  String.map_eq Char.toLower s

example : normalizeCastlingUci "e1h1" = "e1g1" := by
  simp only [normalizeCastlingUci, toLower_eq_map_data]
  decide
example : normalizeCastlingUci "E8A8" = "e8c8" := by
  simp only [normalizeCastlingUci, toLower_eq_map_data]
  decide
example : normalizeCastlingUci "g1f3" = "g1f3" := by
  simp only [normalizeCastlingUci, toLower_eq_map_data]
  decide

/-- `interpolateLogScale`: clamp the value into `[lowGames, highGames]`
and interpolate linearly in `log10` between the two anchor percentages.
`Math.log10` is embedded as the exact real `Real.logb 10`. -/
noncomputable def interpolateLogScale (value lowGames highGames lowPercent highPercent : ℝ) :
    ℝ :=
  let clampedValue := min highGames (max lowGames value)
  let lowLog := Real.logb 10 lowGames
  let highLog := Real.logb 10 highGames
  let valueLog := Real.logb 10 clampedValue
  if highLog = lowLog then highPercent
  else lowPercent + (valueLog - lowLog) / (highLog - lowLog) * (highPercent - lowPercent)

/-- `accuracyFromGames`: piecewise log-scale confidence score from a
sample size. -/
noncomputable def accuracyFromGames (totalGames : ℝ) : ℝ :=
  if 10000 ≤ totalGames then 100
  else if 1000 ≤ totalGames then interpolateLogScale totalGames 1000 10000 50 100
  else if 100 ≤ totalGames then interpolateLogScale totalGames 100 1000 25 50
  else if 11 ≤ totalGames then interpolateLogScale totalGames 11 100 0.99 25
  else if totalGames ≤ 10 then 1
  else 100

/-- Running accuracy state (`accuracyTracker` in the component state). -/
structure AccuracyTracker where
  sum : ℝ
  count : Nat
  display : ℝ

/-- `recordAccuracySample`: add the confidence sample for `totalGames`
to the running sum, and lower the display to the new cumulative average
when that average is below the current display. -/
noncomputable def recordAccuracySample (totalGames : ℝ) (previous : AccuracyTracker) :
    AccuracyTracker :=
  let sample := accuracyFromGames totalGames
  let sum := previous.sum + sample
  let count := previous.count + 1
  let average := sum / (count : ℝ)
  { sum := sum, count := count, display := min previous.display average }

/-- The tracker value stored by `clearSessionState` and `startPractice`
(`{ sum: 0, count: 0, display: 100 }`). -/
def resetAccuracyTracker : AccuracyTracker :=
  { sum := 0, count := 0, display := 100 }

/-- The opening-preset catalog (`OPENINGS`). -/
def OPENINGS : List OpeningPreset :=
  [ { id := "ruy-lopez", name := "Ruy Lopez",
      description := "1. e4 e5 2. Nf3 Nc6 3. Bb5 a6",
      seedMoves := ["e2e4", "e7e5", "g1f3", "b8c6", "f1b5", "a7a6"], userColor := .w },
    { id := "italian-game", name := "Italian Game",
      description := "1. e4 e5 2. Nf3 Nc6 3. Bc4 Bc5",
      seedMoves := ["e2e4", "e7e5", "g1f3", "b8c6", "f1c4", "f8c5"], userColor := .w },
    { id := "scotch-game", name := "Scotch Game",
      description := "1. e4 e5 2. Nf3 Nc6 3. d4 exd4",
      seedMoves := ["e2e4", "e7e5", "g1f3", "b8c6", "d2d4", "e5d4"], userColor := .w },
    { id := "four-knights-game", name := "Four Knights Game",
      description := "1. e4 e5 2. Nf3 Nc6 3. Nc3 Nf6",
      seedMoves := ["e2e4", "e7e5", "g1f3", "b8c6", "b1c3", "g8f6"], userColor := .w },
    { id := "kings-gambit", name := "King's Gambit",
      description := "1. e4 e5 2. f4",
      seedMoves := ["e2e4", "e7e5", "f2f4"], userColor := .w },
    { id := "queens-gambit", name := "Queen's Gambit",
      description := "1. d4 d5 2. c4",
      seedMoves := ["d2d4", "d7d5", "c2c4"], userColor := .w },
    { id := "london-system", name := "London System",
      description := "1. d4 d5 2. Nf3 Nf6 3. Bf4 e6",
      seedMoves := ["d2d4", "d7d5", "g1f3", "g8f6", "c1f4", "e7e6"], userColor := .w },
    { id := "english-opening", name := "English Opening",
      description := "1. c4 e5 2. Nc3 Nf6",
      seedMoves := ["c2c4", "e7e5", "b1c3", "g8f6"], userColor := .w },
    { id := "catalan-opening", name := "Catalan Opening",
      description := "1. d4 Nf6 2. c4 e6 3. g3 d5",
      seedMoves := ["d2d4", "g8f6", "c2c4", "e7e6", "g2g3", "d7d5"], userColor := .w },
    { id := "reti-opening", name := "Reti Opening",
      description := "1. Nf3 d5 2. c4",
      seedMoves := ["g1f3", "d7d5", "c2c4"], userColor := .w },
    { id := "vienna-game", name := "Vienna Game",
      description := "1. e4 e5 2. Nc3 Nf6",
      seedMoves := ["e2e4", "e7e5", "b1c3", "g8f6"], userColor := .w },
    { id := "kings-indian-attack", name := "King's Indian Attack",
      description := "1. Nf3 d5 2. g3 Nf6 3. Bg2 e6",
      seedMoves := ["g1f3", "d7d5", "g2g3", "g8f6", "f1g2", "e7e6"], userColor := .w },
    { id := "dutch-defense", name := "Dutch Defense",
      description := "1. d4 f5",
      seedMoves := ["d2d4", "f7f5"], userColor := .b },
    { id := "sicilian-defense", name := "Sicilian Defense",
      description := "1. e4 c5",
      seedMoves := ["e2e4", "c7c5"], userColor := .b },
    { id := "french-defense", name := "French Defense",
      description := "1. e4 e6",
      seedMoves := ["e2e4", "e7e6"], userColor := .b },
    { id := "caro-kann-defense", name := "Caro-Kann Defense",
      description := "1. e4 c6",
      seedMoves := ["e2e4", "c7c6"], userColor := .b },
    { id := "queens-gambit-declined", name := "Queen's Gambit Declined",
      description := "1. d4 d5 2. c4 e6",
      seedMoves := ["d2d4", "d7d5", "c2c4", "e7e6"], userColor := .b },
    { id := "kings-indian-defense", name := "King's Indian Defense",
      description := "1. d4 Nf6 2. c4 g6",
      seedMoves := ["d2d4", "g8f6", "c2c4", "g7g6"], userColor := .b },
    { id := "nimzo-indian-defense", name := "Nimzo-Indian Defense",
      description := "1. d4 Nf6 2. c4 e6 3. Nc3 Bb4",
      seedMoves := ["d2d4", "g8f6", "c2c4", "e7e6", "b1c3", "f8b4"], userColor := .b },
    { id := "slav-defense", name := "Slav Defense",
      description := "1. d4 d5 2. c4 c6",
      seedMoves := ["d2d4", "d7d5", "c2c4", "c7c6"], userColor := .b },
    { id := "scandinavian-defense", name := "Scandinavian Defense",
      description := "1. e4 d5",
      seedMoves := ["e2e4", "d7d5"], userColor := .b },
    { id := "petroff-defense", name := "Petroff Defense",
      description := "1. e4 e5 2. Nf3 Nf6",
      seedMoves := ["e2e4", "e7e5", "g1f3", "g8f6"], userColor := .b },
    { id := "alekhine-defense", name := "Alekhine Defense",
      description := "1. e4 Nf6",
      seedMoves := ["e2e4", "g8f6"], userColor := .b },
    { id := "pirc-defense", name := "Pirc Defense",
      description := "1. e4 d6 2. d4 Nf6 3. Nc3 g6",
      seedMoves := ["e2e4", "d7d6", "d2d4", "g8f6", "b1c3", "g7g6"], userColor := .b },
    { id := "grunfeld-defense", name := "Grunfeld Defense",
      description := "1. d4 Nf6 2. c4 g6 3. Nc3 d5",
      seedMoves := ["d2d4", "g8f6", "c2c4", "g7g6", "b1c3", "d7d5"], userColor := .b } ]

/-- Side to move after `pliesPlayed` moves have been applied from the
initial position. This is the one fact about the external rule engine
the history model relies on: chess has no passing move, so the turn
alternates, white moving on even ply counts. Replay of a log built from
validated moves is treated as infallible, per the specification. -/
def turnAfter (pliesPlayed : Nat) : PlayerColor :=
  if pliesPlayed % 2 = 0 then .w else .b

/-- The truncation loop of `undoLastAttempt`: while the log is longer
than the seed line, pop the trailing entry (the rule engine's
`game.undo()` together with `nextHistory.pop()`), stopping as soon as
the side to move is the user's color again. -/
def undoLoop (seedLength : Nat) (userColor : PlayerColor) (history : List String) :
    List String :=
  if seedLength < history.length then
    if turnAfter history.dropLast.length = userColor then history.dropLast
    else undoLoop seedLength userColor history.dropLast
  else history
termination_by history.length
decreasing_by
  simp only [List.length_dropLast]
  omega

/-- The part of the session state `undoLastAttempt` decides on: the move
log and the reported status. -/
structure UndoOutcome where
  moveHistoryUci : List String
  status : String
deriving DecidableEq, Repr

/-- `undoLastAttempt` (history part): refuse when the log is no longer
than the seed line, otherwise truncate with `undoLoop`. Replay of the
validated log is modelled as infallible (a failed replay is an
internal-consistency error in the source), so the
"Could not reconstruct game history" and "Could not undo" branches are
unreachable here. -/
def undoLastAttempt (opening : OpeningPreset) (moveHistoryUci : List String) :
    UndoOutcome :=
  let seedLength := opening.seedMoves.length
  if moveHistoryUci.length ≤ seedLength then
    { moveHistoryUci := moveHistoryUci, status := "Nothing to undo yet." }
  else
    { moveHistoryUci := undoLoop seedLength opening.userColor moveHistoryUci
      status := "Undid the last move. Try again." }

/-- The observable session state mutated by the controller's
asynchronous continuations: the current `SessionIdentifier`
(`sessionIdRef.current`), the board (`game`, abstracted over the rule
engine's state type), the move log, the status message, the bot/seeding/
hint flags, the review and the accuracy tracker. -/
structure SessionState (Game : Type) where
  sessionId : Nat
  game : Game
  moveHistoryUci : List String
  status : String
  botThinking : Bool
  isSeeding : Bool
  hintMove : Option RankedMove
  hintLoading : Bool
  lastMoveReview : Option MoveReview
  lastBotMove : String
  lastBotMoveRate : Option ℚ
  accuracyTracker : AccuracyTracker

/-- The synchronous prologue of `playBotMove`, executed when a
delay-completion continuation (in `scoreUserMove` or `startPractice`)
has passed its identifier check and invokes the bot move. -/
def playBotMoveStart {Game : Type} (st : SessionState Game) : SessionState Game :=
  { st with botThinking := true, status := "Bot is choosing a move..." }

/-- The continuation of `playBotMove` after `fetchExplorerMoves`
resolves: gated on the captured identifier, then records an accuracy
sample, runs the weighted choice, applies the selected move through the
rule engine (`tryApply`, standing for `new Chess(fen)` plus
`game.move(parseUci(...))`), and updates board, log and status; the
`finally` block clears `botThinking` only when the identifier is still
current. `u` is the injected `Math.random()` draw and `isOver` the rule
engine's `isGameOver`. -/
noncomputable def playBotMoveOnResponse {Game : Type}
    (tryApply : Game → String → Option (Game × Move)) (isOver : Game → Bool)
    (currentGame : Game) (currentHistory : List String) (config : SessionConfig)
    (sessionId : Nat) (explorer : ExplorerResponse) (u : ℚ)
    (st : SessionState Game) : SessionState Game :=
  if sessionId = st.sessionId then
    let st1 := { st with accuracyTracker :=
      recordAccuracySample (getExplorerTotalGames explorer : ℝ) st.accuracyTracker }
    let totalGamesAtPosition := getExplorerTotalGames explorer
    let result := chooseWeightedMove explorer config.botMoveThresholdPercent
      config.alwaysPlayMostCommonMove u
    match result.selected with
    | none =>
      { st1 with
        status := "No playable move returned for this position at current filters. Try a different opening or Elo."
        botThinking := false }
    | some selected =>
      let selectedUci := normalizeCastlingUci selected.uci
      match tryApply currentGame selectedUci with
      | none =>
        { st1 with
          status := "Explorer suggested illegal move " ++ selected.uci ++ ". Try another position."
          botThinking := false }
      | some (nextGame, appliedMove) =>
        let moveRateMessage := "From " ++ toString totalGamesAtPosition ++
          " games in this position, the bot plays " ++ appliedMove.san ++
          " " ++ toString (result.selectedRate * 100) ++ "% of the time at your elo."
        let st2 := { st1 with
          game := nextGame
          moveHistoryUci := currentHistory ++ [selectedUci]
          lastBotMove := appliedMove.san
          lastBotMoveRate := some result.selectedRate
          hintMove := none }
        if isOver nextGame then
          { st2 with status := moveRateMessage ++ " Game over.", botThinking := false }
        else if result.usedFallbackPool then
          { st2 with
            status := moveRateMessage ++ " No move was above " ++
              toString config.botMoveThresholdPercent ++
              "%, so it used the full move list for this turn."
            botThinking := false }
        else
          { st2 with status := moveRateMessage ++ " Your move.", botThinking := false }
  else st

/-- The error-handler continuation of `playBotMove` (`catch` plus
`finally`): gated on the captured identifier before reporting the
provider failure and clearing `botThinking`. -/
def playBotMoveOnError {Game : Type} (sessionId : Nat) (message : String)
    (st : SessionState Game) : SessionState Game :=
  if sessionId = st.sessionId then
    { st with status := "Explorer request failed: " ++ message, botThinking := false }
  else st

/-- The continuation of `scoreUserMove` after its statistics query
resolves, up to the `delay` suspension point: gated on the captured
identifier, then records an accuracy sample, builds and publishes the
`MoveReview`, and reports either the grade or the game-over message for
the position reached by the user's move (`nextGameOver` is the rule
engine's `nextGame.isGameOver()`). -/
noncomputable def scoreUserMoveOnResponse {Game : Type}
    (nextGameOver : Bool) (userMove : Move) (config : SessionConfig)
    (sessionId : Nat) (explorer : ExplorerResponse)
    (st : SessionState Game) : SessionState Game :=
  if sessionId = st.sessionId then
    let st1 := { st with accuracyTracker :=
      recordAccuracySample (getExplorerTotalGames explorer : ℝ) st.accuracyTracker }
    let rankedMoves := buildRankedMoves explorer
    let review := buildMoveReview rankedMoves userMove config.opening.userColor
    let rankText := match review.playedRank with
      | some r => "#" ++ toString r
      | none => "unranked"
    let st2 := { st1 with
      lastMoveReview := some review
      status := "You played " ++ review.playedSan ++ ": " ++ review.grade ++
        " (rank " ++ rankText ++ " in 2000+ games)." }
    if nextGameOver then
      { st2 with status := "You played " ++ userMove.san ++ ". Game over." }
    else st2
  else st

/-- The error-handler continuation of `scoreUserMove` (`catch`, followed
by the identifier re-check and the game-over branch before the `delay`
suspension): gated on the captured identifier. -/
def scoreUserMoveOnError {Game : Type} (nextGameOver : Bool) (userMove : Move)
    (sessionId : Nat) (message : String) (st : SessionState Game) : SessionState Game :=
  if sessionId = st.sessionId then
    let st1 := { st with
      status := "Could not score this move from 2000+ data: " ++ message }
    if nextGameOver then
      { st1 with status := "You played " ++ userMove.san ++ ". Game over." }
    else st1
  else st

/-- The continuation of `scoreUserMove` after the pre-bot-move `delay`
fires: gated on the captured identifier, then enters `playBotMove`
(whose prologue sets `botThinking` and the status). -/
def scoreUserMoveOnDelay {Game : Type} (sessionId : Nat) (st : SessionState Game) :
    SessionState Game :=
  if sessionId = st.sessionId then playBotMoveStart st else st

/-- The continuation of `requestHint` after its statistics query
resolves (including the identifier-gated `finally` that clears
`hintLoading`): surfaces the top-ranked move without touching the log. -/
def requestHintOnResponse {Game : Type} (userColor : PlayerColor) (sessionId : Nat)
    (explorer : ExplorerResponse) (st : SessionState Game) : SessionState Game :=
  if sessionId = st.sessionId then
    let rankedMoves := buildRankedMoves explorer
    match rankedMoves.head? with
    | none =>
      { st with
        hintMove := none
        status := "No hint available for this position."
        hintLoading := false }
    | some bestMove =>
      { st with
        hintMove := some bestMove
        status := "Hint: most played move for " ++
          (if userColor = .w then "White" else "Black") ++ " is " ++ bestMove.san ++
          " (" ++ toString (bestMove.rate * 100) ++ "% in 2000+ games)."
        hintLoading := false }
  else st

/-- The error-handler continuation of `requestHint` (`catch` plus the
identifier-gated `finally`). -/
def requestHintOnError {Game : Type} (sessionId : Nat) (message : String)
    (st : SessionState Game) : SessionState Game :=
  if sessionId = st.sessionId then
    { st with status := "Could not load hint: " ++ message, hintLoading := false }
  else st

/-- The continuation of the seeding loop of `startPractice` after an
inter-seed-move `delay(500)` fires: gated on the captured identifier,
then applies the next seed move (index `index`) through the rule engine
and publishes board, log and progress; an invalid seed move aborts with
an error status, the identifier-gated `finally` clearing `isSeeding`. -/
def startPracticeOnSeedDelay {Game : Type}
    (tryApply : Game → String → Option (Game × Move)) (config : SessionConfig)
    (sessionId : Nat) (seededGame : Game) (seededHistory : List String) (index : Nat)
    (st : SessionState Game) : SessionState Game :=
  if sessionId = st.sessionId then
    match config.opening.seedMoves[index]? with
    | none => st
    | some uci =>
      match tryApply seededGame uci with
      | none =>
        { st with
          status := "Invalid seed move in opening preset: " ++ uci
          isSeeding := false }
      | some (nextGame, appliedMove) =>
        { st with
          game := nextGame
          moveHistoryUci := seededHistory ++ [uci]
          status := "Setting up opening line... " ++ toString (index + 1) ++ "/" ++
            toString config.opening.seedMoves.length ++ " (" ++ appliedMove.san ++ ")" }
  else st

/-- The continuation of `startPractice` after the post-seeding
`delay(BOT_MOVE_DELAY_MS)` fires: gated on the captured identifier, then
enters `playBotMove`. -/
def startPracticeOnBotDelay {Game : Type} (sessionId : Nat) (st : SessionState Game) :
    SessionState Game :=
  if sessionId = st.sessionId then playBotMoveStart st else st

/-! ## Claim C9: accuracy tracker display is non-increasing; reset restores (0, 0, 100) -/

/-- C9: within one session, each recorded sample sets the display to the
minimum of the previous display and the new cumulative average, so the
display is non-increasing across any sequence of recorded samples, and
the reset value stored on session reset is sum 0, count 0, display 100. -/
theorem accuracy_display_non_increasing_and_reset_c9 :
    (∀ (previous : AccuracyTracker) (totalGames : ℝ),
        (recordAccuracySample totalGames previous).display =
          min previous.display
            ((previous.sum + accuracyFromGames totalGames) / ((previous.count + 1 : ℕ) : ℝ)) ∧
        (recordAccuracySample totalGames previous).display ≤ previous.display) ∧
    (∀ (previous : AccuracyTracker) (samples : List ℝ),
        (samples.foldl (fun tracker totalGames => recordAccuracySample totalGames tracker)
            previous).display ≤ previous.display) ∧
    resetAccuracyTracker.sum = 0 ∧ resetAccuracyTracker.count = 0 ∧
      resetAccuracyTracker.display = 100 := by
  refine ⟨fun previous totalGames => ⟨rfl, min_le_left _ _⟩, ?_, rfl, rfl, rfl⟩
  intro previous samples
  induction samples generalizing previous with
  | nil => exact le_refl _
  | cons sample rest ih =>
    exact le_trans (ih (recordAccuracySample sample previous)) (min_le_left _ _)

/-! ## Claim C1: stale continuations never mutate observable session state -/

/-- C1: every asynchronous continuation of `playBotMove`,
`scoreUserMove`, `requestHint` and `startPractice` — statistics-query
completions, their error handlers, and delay completions — re-checks the
captured `SessionIdentifier` against the current one and leaves the
whole observable session state untouched when they differ. -/
theorem stale_continuations_never_mutate_c1 :
    (∀ (Game : Type) (tryApply : Game → String → Option (Game × Move))
        (isOver : Game → Bool) (currentGame : Game) (currentHistory : List String)
        (config : SessionConfig) (sessionId : Nat) (explorer : ExplorerResponse) (u : ℚ)
        (st : SessionState Game), sessionId ≠ st.sessionId →
        playBotMoveOnResponse tryApply isOver currentGame currentHistory config
          sessionId explorer u st = st) ∧
    (∀ (Game : Type) (sessionId : Nat) (message : String) (st : SessionState Game),
        sessionId ≠ st.sessionId → playBotMoveOnError sessionId message st = st) ∧
    (∀ (Game : Type) (nextGameOver : Bool) (userMove : Move) (config : SessionConfig)
        (sessionId : Nat) (explorer : ExplorerResponse) (st : SessionState Game),
        sessionId ≠ st.sessionId →
        scoreUserMoveOnResponse nextGameOver userMove config sessionId explorer st = st) ∧
    (∀ (Game : Type) (nextGameOver : Bool) (userMove : Move) (sessionId : Nat)
        (message : String) (st : SessionState Game), sessionId ≠ st.sessionId →
        scoreUserMoveOnError nextGameOver userMove sessionId message st = st) ∧
    (∀ (Game : Type) (sessionId : Nat) (st : SessionState Game),
        sessionId ≠ st.sessionId → scoreUserMoveOnDelay sessionId st = st) ∧
    (∀ (Game : Type) (userColor : PlayerColor) (sessionId : Nat)
        (explorer : ExplorerResponse) (st : SessionState Game), sessionId ≠ st.sessionId →
        requestHintOnResponse userColor sessionId explorer st = st) ∧
    (∀ (Game : Type) (sessionId : Nat) (message : String) (st : SessionState Game),
        sessionId ≠ st.sessionId → requestHintOnError sessionId message st = st) ∧
    (∀ (Game : Type) (tryApply : Game → String → Option (Game × Move))
        (config : SessionConfig) (sessionId : Nat) (seededGame : Game)
        (seededHistory : List String) (index : Nat) (st : SessionState Game),
        sessionId ≠ st.sessionId →
        startPracticeOnSeedDelay tryApply config sessionId seededGame seededHistory
          index st = st) ∧
    (∀ (Game : Type) (sessionId : Nat) (st : SessionState Game),
        sessionId ≠ st.sessionId → startPracticeOnBotDelay sessionId st = st) := by
  refine ⟨?_, ?_, ?_, ?_, ?_, ?_, ?_, ?_, ?_⟩ <;>
    intros <;>
    first
      | (rename_i h; simp only [playBotMoveOnResponse, playBotMoveOnError,
          scoreUserMoveOnResponse, scoreUserMoveOnError, scoreUserMoveOnDelay,
          requestHintOnResponse, requestHintOnError, startPracticeOnSeedDelay,
          startPracticeOnBotDelay, if_neg h])

/-- A session state whose current identifier is 1, used to exercise the
stale path of every continuation. -/
def staleProbeState : SessionState Unit :=
  { sessionId := 1, game := (), moveHistoryUci := [], status := ""
    botThinking := false, isSeeding := false, hintMove := none, hintLoading := false
    lastMoveReview := none, lastBotMove := "", lastBotMoveRate := none
    accuracyTracker := resetAccuracyTracker }

/-- A minimal session configuration for concrete probes. -/
def probeConfig : SessionConfig :=
  { opening := { id := "probe", name := "Probe", description := ""
                 seedMoves := ["e2e4"], userColor := .w }
    elo := 1500, eloRatings := "1400,1600", speed := .rapid
    botMoveThresholdPercent := 10, alwaysPlayMostCommonMove := false }

/-- An empty statistics snapshot for concrete probes. -/
def probeExplorer : ExplorerResponse := { white := 0, draws := 0, black := 0, moves := [] }

/-- A dummy rule-engine move for concrete probes. -/
def probeMove : Move :=
  { color := .w, fromSquare := "e2", toSquare := "e4", promotion := none, san := "e4" }

/-- Witness for C1: at captured identifier 0 against current identifier
1, every continuation returns the state unchanged. -/
theorem stale_continuations_never_mutate_c1_witness :
    (0 : Nat) ≠ staleProbeState.sessionId ∧
    playBotMoveOnResponse (fun _ _ => none) (fun _ => false) () [] probeConfig 0
        probeExplorer 0 staleProbeState = staleProbeState ∧
    playBotMoveOnError 0 "boom" staleProbeState = staleProbeState ∧
    scoreUserMoveOnResponse false probeMove probeConfig 0 probeExplorer staleProbeState =
      staleProbeState ∧
    scoreUserMoveOnError false probeMove 0 "boom" staleProbeState = staleProbeState ∧
    scoreUserMoveOnDelay 0 staleProbeState = staleProbeState ∧
    requestHintOnResponse .w 0 probeExplorer staleProbeState = staleProbeState ∧
    requestHintOnError 0 "boom" staleProbeState = staleProbeState ∧
    startPracticeOnSeedDelay (fun _ _ => none) probeConfig 0 () [] 0 staleProbeState =
      staleProbeState ∧
    startPracticeOnBotDelay 0 staleProbeState = staleProbeState := by
  have hne : (0 : Nat) ≠ staleProbeState.sessionId := by decide
  exact ⟨hne,
    stale_continuations_never_mutate_c1.1 Unit _ _ _ _ _ _ _ _ _ hne,
    stale_continuations_never_mutate_c1.2.1 Unit _ _ _ hne,
    stale_continuations_never_mutate_c1.2.2.1 Unit _ _ _ _ _ _ hne,
    stale_continuations_never_mutate_c1.2.2.2.1 Unit _ _ _ _ _ hne,
    stale_continuations_never_mutate_c1.2.2.2.2.1 Unit _ _ hne,
    stale_continuations_never_mutate_c1.2.2.2.2.2.1 Unit _ _ _ _ hne,
    stale_continuations_never_mutate_c1.2.2.2.2.2.2.1 Unit _ _ _ hne,
    stale_continuations_never_mutate_c1.2.2.2.2.2.2.2.1 Unit _ _ _ _ _ _ _ hne,
    stale_continuations_never_mutate_c1.2.2.2.2.2.2.2.2 Unit _ _ hne⟩

/-! ## Claim C7: undo truncates only trailing entries, never into the seed line -/

/-- Taking a prefix that fits inside the left part of an append reads
only the left part. -/
theorem take_append_left {α : Type} :
    ∀ (l l' : List α) (r : Nat), r ≤ l.length → (l ++ l').take r = l.take r
  | _, _, 0, _ => by simp
  | [], _, r + 1, h => by simp at h
  | a :: l, l', r + 1, h => by
    simp only [List.cons_append, List.take_succ_cons]
    rw [take_append_left l l' r (by simpa using h)]

/-- Characterisation of the truncation loop: when the log is longer than
the seed line, the loop removes at least one trailing entry, never goes
below the seed length, and stops at the first (longest) residual length
at which the user is to move again, or at the seed length. -/
theorem undoLoop_spec (seedLength : Nat) (userColor : PlayerColor) :
    ∀ history : List String, seedLength < history.length →
      ∃ r, undoLoop seedLength userColor history = history.take r ∧
        seedLength ≤ r ∧ r < history.length ∧
        (turnAfter r = userColor ∨ r = seedLength) ∧
        (∀ m, r < m → m < history.length → turnAfter m ≠ userColor) := by
  intro history
  induction history using List.reverseRecOn with
  | nil => intro hlt; simp at hlt
  | append_singleton l a ih =>
    intro hlt
    have hlen : (l ++ [a]).length = l.length + 1 := by simp
    rw [undoLoop, if_pos hlt, List.dropLast_concat]
    by_cases hturn : turnAfter l.length = userColor
    · rw [if_pos hturn]
      refine ⟨l.length, (List.take_left l [a]).symm, by omega, by omega, Or.inl hturn, ?_⟩
      intro m h1 h2
      omega
    · rw [if_neg hturn]
      by_cases hrec : seedLength < l.length
      · obtain ⟨r, hloop, hsl, hrlt, hstop, hmin⟩ := ih hrec
        refine ⟨r, ?_, hsl, by omega, hstop, ?_⟩
        · rw [hloop, take_append_left l [a] r (by omega)]
        · intro m h1 h2
          rcases Nat.lt_or_ge m l.length with hm | hm
          · exact hmin m h1 hm
          · have hme : m = l.length := by omega
            rwa [hme]
      · rw [undoLoop, if_neg hrec]
        have hseed : seedLength = l.length := by omega
        refine ⟨l.length, (List.take_left l [a]).symm, by omega, by omega,
          Or.inr hseed.symm, ?_⟩
        intro m h1 h2
        omega

/-- C7: with a log no longer than the seed line, undo reports
"Nothing to undo yet." and changes nothing; with a longer log, undo
removes at least one and only trailing entries, never truncating into
the seed line, and removes exactly as many as needed to put the user's
color back on move (or hit the seed-line floor). -/
theorem undo_truncation_c7 (opening : OpeningPreset) (history : List String) :
    (history.length ≤ opening.seedMoves.length →
      undoLastAttempt opening history =
        { moveHistoryUci := history, status := "Nothing to undo yet." }) ∧
    (opening.seedMoves.length < history.length →
      ∃ r, (undoLastAttempt opening history).moveHistoryUci = history.take r ∧
        opening.seedMoves.length ≤ r ∧ r < history.length ∧
        (turnAfter r = opening.userColor ∨ r = opening.seedMoves.length) ∧
        (∀ m, r < m → m < history.length → turnAfter m ≠ opening.userColor) ∧
        (undoLastAttempt opening history).status = "Undid the last move. Try again.") := by
  constructor
  · intro hle
    rw [undoLastAttempt]
    simp only [if_pos hle]
  · intro hlt
    obtain ⟨r, hloop, hsl, hrlt, hstop, hmin⟩ :=
      undoLoop_spec opening.seedMoves.length opening.userColor history hlt
    refine ⟨r, ?_, hsl, hrlt, hstop, hmin, ?_⟩ <;>
      · rw [undoLastAttempt]
        simp only [if_neg (Nat.not_le.mpr hlt)]
        try exact hloop

/-- Witness for C7: English Opening (four seed moves, user plays white)
with three extra plies logged; undo truncates to six plies (take 6),
landing back on white to move without touching the seed line. -/
theorem undo_truncation_c7_witness :
    ((4 : Nat) < 7) ∧
    (∃ r, (undoLastAttempt
        { id := "english-opening", name := "English Opening"
          description := "1. c4 e5 2. Nc3 Nf6"
          seedMoves := ["c2c4", "e7e5", "b1c3", "g8f6"], userColor := .w }
        ["c2c4", "e7e5", "b1c3", "g8f6", "d2d3", "d7d6", "g2g3"]).moveHistoryUci =
          ["c2c4", "e7e5", "b1c3", "g8f6", "d2d3", "d7d6", "g2g3"].take r ∧
      4 ≤ r ∧ r < 7 ∧
      (turnAfter r = .w ∨ r = 4) ∧
      (∀ m, r < m → m < 7 → turnAfter m ≠ .w) ∧
      (undoLastAttempt
        { id := "english-opening", name := "English Opening"
          description := "1. c4 e5 2. Nc3 Nf6"
          seedMoves := ["c2c4", "e7e5", "b1c3", "g8f6"], userColor := .w }
        ["c2c4", "e7e5", "b1c3", "g8f6", "d2d3", "d7d6", "g2g3"]).status =
          "Undid the last move. Try again.") :=
  ⟨by decide,
    (undo_truncation_c7
      { id := "english-opening", name := "English Opening"
        description := "1. c4 e5 2. Nc3 Nf6"
        seedMoves := ["c2c4", "e7e5", "b1c3", "g8f6"], userColor := .w }
      ["c2c4", "e7e5", "b1c3", "g8f6", "d2d3", "d7d6", "g2g3"]).2 (by decide)⟩

/-! ## Claim C8: every token appended to the move log is castling-normalised -/

/-- `Char.toLower` unfolded (its definition is a single conditional). -/
theorem Char_toLower_def (c : Char) :
    c.toLower = if c.toNat ≥ 65 ∧ c.toNat ≤ 90 then Char.ofNat (c.toNat + 32) else c := rfl

/-- ASCII lower-casing of a character is idempotent. -/
theorem Char_toLower_idem (c : Char) : c.toLower.toLower = c.toLower := by
  rw [Char_toLower_def c]
  by_cases h : c.toNat ≥ 65 ∧ c.toNat ≤ 90
  · rw [if_pos h]
    have h65 := h.1
    have h90 := h.2
    generalize c.toNat = n at h65 h90
    interval_cases n <;> decide
  · rw [if_neg h, Char_toLower_def c, if_neg h]

/-- `String.toLower` is idempotent. -/
theorem String_toLower_idem (s : String) : s.toLower.toLower = s.toLower := by
  rw [toLower_eq_map_data s, toLower_eq_map_data ⟨s.data.map Char.toLower⟩]
  show (⟨(s.data.map Char.toLower).map Char.toLower⟩ : String) = _
  rw [List.map_map]
  exact congrArg String.mk (List.map_congr_left fun c _ => Char_toLower_idem c)

/-- A lower-case string that is none of the four castling encodings is a
fixed point of `normalizeCastlingUci`. -/
theorem normalizeCastlingUci_fixed (t : String) (ht : t.toLower = t)
    (h1 : t ≠ "e1h1") (h2 : t ≠ "e1a1") (h3 : t ≠ "e8h8") (h4 : t ≠ "e8a8") :
    normalizeCastlingUci t = t := by
  unfold normalizeCastlingUci
  rw [ht, if_neg h1, if_neg h2, if_neg h3, if_neg h4]

/-- `normalizeCastlingUci` returns one of the four rewritten castling
tokens, or the lower-cased input known not to be a castling encoding. -/
theorem normalizeCastlingUci_cases (s : String) :
    normalizeCastlingUci s = "e1g1" ∨ normalizeCastlingUci s = "e1c1" ∨
    normalizeCastlingUci s = "e8g8" ∨ normalizeCastlingUci s = "e8c8" ∨
    (normalizeCastlingUci s = s.toLower ∧ s.toLower ≠ "e1h1" ∧ s.toLower ≠ "e1a1" ∧
      s.toLower ≠ "e8h8" ∧ s.toLower ≠ "e8a8") := by
  unfold normalizeCastlingUci
  by_cases h1 : s.toLower = "e1h1"
  · rw [if_pos h1]; exact Or.inl rfl
  rw [if_neg h1]
  by_cases h2 : s.toLower = "e1a1"
  · rw [if_pos h2]; exact Or.inr (Or.inl rfl)
  rw [if_neg h2]
  by_cases h3 : s.toLower = "e8h8"
  · rw [if_pos h3]; exact Or.inr (Or.inr (Or.inl rfl))
  rw [if_neg h3]
  by_cases h4 : s.toLower = "e8a8"
  · rw [if_pos h4]; exact Or.inr (Or.inr (Or.inr (Or.inl rfl)))
  rw [if_neg h4]
  exact Or.inr (Or.inr (Or.inr (Or.inr ⟨rfl, h1, h2, h3, h4⟩)))

/-- `normalizeCastlingUci` is idempotent: its outputs are already in
castling-normalised form. -/
theorem normalizeCastlingUci_idem (s : String) :
    normalizeCastlingUci (normalizeCastlingUci s) = normalizeCastlingUci s := by
  rcases normalizeCastlingUci_cases s with h | h | h | h | ⟨h, h1, h2, h3, h4⟩ <;> rw [h]
  · exact normalizeCastlingUci_fixed _ (by simp only [toLower_eq_map_data]; decide)
      (by decide) (by decide) (by decide) (by decide)
  · exact normalizeCastlingUci_fixed _ (by simp only [toLower_eq_map_data]; decide)
      (by decide) (by decide) (by decide) (by decide)
  · exact normalizeCastlingUci_fixed _ (by simp only [toLower_eq_map_data]; decide)
      (by decide) (by decide) (by decide) (by decide)
  · exact normalizeCastlingUci_fixed _ (by simp only [toLower_eq_map_data]; decide)
      (by decide) (by decide) (by decide) (by decide)
  · refine normalizeCastlingUci_fixed _ (String_toLower_idem s) ?_ ?_ ?_ ?_ <;> assumption

/-- C8: every token the session appends to the move log is in
castling-normalised form. A user move is stored as `toUci move` and a
bot move as `normalizeCastlingUci selected.uci`, both fixed points of
the normalisation since it is idempotent; the four castling encodings
are rewritten to the king-two-squares form; and opening-line seeding
stores the preset tokens verbatim, every seed token of the catalog
already being normalised. -/
theorem appended_tokens_normalized_c8 :
    (∀ s : String, normalizeCastlingUci (normalizeCastlingUci s) = normalizeCastlingUci s) ∧
    (∀ move : Move, normalizeCastlingUci (toUci move) = toUci move) ∧
    normalizeCastlingUci "e1h1" = "e1g1" ∧ normalizeCastlingUci "e1a1" = "e1c1" ∧
    normalizeCastlingUci "e8h8" = "e8g8" ∧ normalizeCastlingUci "e8a8" = "e8c8" ∧
    (∀ preset ∈ OPENINGS, ∀ uci ∈ preset.seedMoves, normalizeCastlingUci uci = uci) := by
  refine ⟨normalizeCastlingUci_idem, fun move => normalizeCastlingUci_idem _, ?_, ?_, ?_, ?_, ?_⟩
  · simp only [normalizeCastlingUci, toLower_eq_map_data]; decide
  · simp only [normalizeCastlingUci, toLower_eq_map_data]; decide
  · simp only [normalizeCastlingUci, toLower_eq_map_data]; decide
  · simp only [normalizeCastlingUci, toLower_eq_map_data]; decide
  · simp only [OPENINGS, normalizeCastlingUci, toLower_eq_map_data]
    decide

/-! ## Claim C6: `alwaysPlayMostCommonMove` is a deterministic first-argmax -/

/-- The source's `reduce` over the weighted pool (seeded with the first
entry, replacing only on a strictly larger game count) returns the
first entry attaining the maximal game count: the list decomposes
around the result, everything before it strictly smaller, everything
after it no larger. -/
theorem foldl_mostCommon_decomp {α : Type} (f : α → Nat) (rest : List α) (a : α) :
    ∃ l1 l2,
      a :: rest =
        l1 ++ (rest.foldl (fun best current => if f best < f current then current else best) a)
          :: l2 ∧
      (∀ x ∈ l1,
        f x < f (rest.foldl (fun best current => if f best < f current then current else best) a)) ∧
      (∀ x ∈ l2,
        f x ≤ f (rest.foldl (fun best current => if f best < f current then current else best) a)) := by
  induction rest generalizing a with
  | nil => exact ⟨[], [], by simp, by simp, by simp⟩
  | cons b rest ih =>
    simp only [List.foldl_cons]
    by_cases h : f a < f b
    · rw [if_pos h]
      obtain ⟨l1, l2, hdec, h1, h2⟩ := ih b
      generalize hc :
        rest.foldl (fun best current => if f best < f current then current else best) b = c
        at hdec h1 h2 ⊢
      have hble : f b ≤ f c := by
        rcases l1 with _ | ⟨y, t⟩
        · simp only [List.nil_append, List.cons_eq_cons] at hdec
          exact le_of_eq (congrArg f hdec.1)
        · simp only [List.cons_append, List.cons_eq_cons] at hdec
          have hfy := h1 y (List.mem_cons_self y t)
          rw [hdec.1]
          exact le_of_lt hfy
      refine ⟨a :: l1, l2, ?_, ?_, h2⟩
      · rw [List.cons_append, ← hdec]
      · intro x hx
        rcases List.mem_cons.mp hx with hxa | hxl
        · exact hxa ▸ lt_of_lt_of_le h hble
        · exact h1 x hxl
    · rw [if_neg h]
      obtain ⟨l1, l2, hdec, h1, h2⟩ := ih a
      generalize hc :
        rest.foldl (fun best current => if f best < f current then current else best) a = c
        at hdec h1 h2 ⊢
      rcases l1 with _ | ⟨y, t⟩
      · simp only [List.nil_append, List.cons_eq_cons] at hdec
        refine ⟨[], b :: l2, ?_, by simp, ?_⟩
        · rw [List.nil_append, ← hdec.1, ← hdec.2]
        · intro x hx
          rcases List.mem_cons.mp hx with hxb | hxl
          · rw [hxb, ← hdec.1]
            exact Nat.le_of_not_lt h
          · exact h2 x hxl
      · simp only [List.cons_append, List.cons_eq_cons] at hdec
        have hay : f a < f c := by
          rw [hdec.1]
          exact h1 y (List.mem_cons_self y t)
        refine ⟨a :: b :: t, l2, ?_, ?_, h2⟩
        · simp only [List.cons_append]
          rw [← hdec.2]
        · intro x hx
          rcases List.mem_cons.mp hx with hxa | hxbt
          · exact hxa ▸ hay
          rcases List.mem_cons.mp hxbt with hxb | hxt
          · exact hxb ▸ lt_of_le_of_lt (Nat.le_of_not_lt h) hay
          · exact h1 x (List.mem_cons_of_mem y hxt)

/-- Lifting the first-argmax decomposition through the map that attaches
rates: if the weighted pool is the image of a move list `F` under a map
preserving the move and its game count, the fold's result identifies a
first-argmax position of `F`. -/
theorem mostCommon_argmax_aux (F : List ExplorerMove) (W : ExplorerMove → WeightedMove)
    (hWm : ∀ x, (W x).move = x) (hWg : ∀ x, (W x).games = mGames x)
    (first : WeightedMove) (rest : List WeightedMove) (hmap : F.map W = first :: rest)
    (m : ExplorerMove)
    (hsel : (rest.foldl (fun best current =>
        if best.games < current.games then current else best) first).move = m) :
    ∃ before after, F = before ++ m :: after ∧
      (∀ x ∈ before, mGames x < mGames m) ∧ (∀ x ∈ after, mGames x ≤ mGames m) := by
  obtain ⟨l1, l2, hdec, h1, h2⟩ := foldl_mostCommon_decomp WeightedMove.games rest first
  generalize hc : rest.foldl (fun best current =>
      if best.games < current.games then current else best) first = c at hdec h1 h2 hsel
  rw [← hmap] at hdec
  obtain ⟨f1, f2, hF, hf1, hf2⟩ := List.map_eq_append_iff.mp hdec
  obtain ⟨x, f2x, hf2x, hWx, hmap2⟩ := List.map_eq_cons_iff.mp hf2
  have hxm : x = m := by rw [← hsel, ← hWx, hWm x]
  subst hxm
  have hcg : c.games = mGames x := by rw [← hWx, hWg]
  refine ⟨f1, f2x, by rw [hF, hf2x], ?_, ?_⟩
  · intro y hy
    have hmem : W y ∈ l1 := hf1 ▸ List.mem_map_of_mem W hy
    have hlt := h1 _ hmem
    rwa [hWg, hcg] at hlt
  · intro y hy
    have hmem : W y ∈ l2 := hmap2 ▸ List.mem_map_of_mem W hy
    have hle := h2 _ hmem
    rwa [hWg, hcg] at hle

/-- C6: with `alwaysPlayMostCommonMove` on, `chooseWeightedMove` is
independent of the random draw; it returns no selection exactly when
every candidate has zero games; any selection is the candidate with the
largest game count, the first such in snapshot order on ties; and on
candidates with game counts 40, 90, 10 it always selects the second. -/
theorem always_most_common_deterministic_c6 :
    (∀ (explorer : ExplorerResponse) (threshold u v : ℚ),
        chooseWeightedMove explorer threshold true u =
          chooseWeightedMove explorer threshold true v) ∧
    (∀ (explorer : ExplorerResponse) (threshold u : ℚ),
        (chooseWeightedMove explorer threshold true u).selected = none ↔
          ∀ move ∈ explorer.moves, mGames move = 0) ∧
    (∀ (explorer : ExplorerResponse) (threshold u : ℚ) (m : ExplorerMove),
        (chooseWeightedMove explorer threshold true u).selected = some m →
        ∃ before after,
          explorer.moves.filter (fun x => 0 < mGames x) = before ++ m :: after ∧
          (∀ x ∈ before, mGames x < mGames m) ∧
          (∀ x ∈ after, mGames x ≤ mGames m)) ∧
    (∀ u : ℚ,
        (chooseWeightedMove
          { white := 0, draws := 0, black := 0
            moves := [{ uci := "a7a6", san := "a6", white := 40, draws := 0, black := 0 },
                      { uci := "b7b6", san := "b6", white := 90, draws := 0, black := 0 },
                      { uci := "c7c6", san := "c6", white := 10, draws := 0, black := 0 }] }
          10 true u).selected =
        some { uci := "b7b6", san := "b6", white := 90, draws := 0, black := 0 }) := by
  have hdet : ∀ (explorer : ExplorerResponse) (threshold u v : ℚ),
      chooseWeightedMove explorer threshold true u =
        chooseWeightedMove explorer threshold true v := fun _ _ _ _ => rfl
  refine ⟨hdet, ?_, ?_, ?_⟩
  · intro explorer threshold u
    simp only [chooseWeightedMove, if_pos rfl]
    rcases hbase : ((explorer.moves.map fun move => (move, mGames move)).filter
        fun entry => 0 < entry.2) with _ | ⟨p, ps⟩
    · simp only [hbase, List.map_nil]
      constructor
      · intro _ move hmove
        have hall := List.filter_eq_nil_iff.mp hbase
        have := hall (move, mGames move)
          (List.mem_map.mpr ⟨move, hmove, rfl⟩)
        simpa using this
      · intro _
        rfl
    · simp only [hbase, List.map_cons]
      constructor
      · intro habs
        simp at habs
      · intro hall
        have hp : p ∈ (explorer.moves.map fun move => (move, mGames move)).filter
            fun entry => 0 < entry.2 := by
          rw [hbase]
          exact List.mem_cons_self p ps
        have hpf := List.of_mem_filter hp
        have hpm := List.mem_of_mem_filter hp
        obtain ⟨move, hmove, hpair⟩ := List.mem_map.mp hpm
        have : mGames move = 0 := hall move hmove
        rw [← hpair] at hpf
        simp [this] at hpf
  · intro explorer threshold u m hsel
    simp only [chooseWeightedMove, if_pos rfl] at hsel
    rcases hbase : ((explorer.moves.map fun move => (move, mGames move)).filter
        fun entry => 0 < entry.2) with _ | ⟨p, ps⟩
    · rw [hbase] at hsel
      simp at hsel
    · rw [hbase] at hsel
      simp only [List.map_cons, if_true, Option.some.injEq] at hsel
      have hFP : (explorer.moves.filter fun x => 0 < mGames x).map
          (fun move => (move, mGames move)) = p :: ps := by
        rw [← hbase, List.filter_map]
        rfl
      refine mostCommon_argmax_aux (explorer.moves.filter fun x => 0 < mGames x)
        (toWeighted (if 0 < explorer.white + explorer.draws + explorer.black then
            explorer.white + explorer.draws + explorer.black
          else (p.2 :: List.map (fun entry => entry.2) ps).sum) ∘
            fun move => (move, mGames move))
        (fun x => rfl) (fun x => rfl) _ _ ?_ m hsel
      rw [← List.map_map, hFP, List.map_cons]
  · intro u
    rw [hdet _ 10 u 0]
    decide

/-- Witness for C6: on the 40/90/10 candidate pool the argmax
characterisation applies to the concrete selection of the 90-game
candidate. -/
theorem always_most_common_deterministic_c6_witness :
    ((chooseWeightedMove
        { white := 0, draws := 0, black := 0
          moves := [{ uci := "a7a6", san := "a6", white := 40, draws := 0, black := 0 },
                    { uci := "b7b6", san := "b6", white := 90, draws := 0, black := 0 },
                    { uci := "c7c6", san := "c6", white := 10, draws := 0, black := 0 }] }
        10 true 0).selected =
      some { uci := "b7b6", san := "b6", white := 90, draws := 0, black := 0 }) ∧
    (∃ before after,
      ({ white := 0, draws := 0, black := 0
         moves := [{ uci := "a7a6", san := "a6", white := 40, draws := 0, black := 0 },
                   { uci := "b7b6", san := "b6", white := 90, draws := 0, black := 0 },
                   { uci := "c7c6", san := "c6", white := 10, draws := 0, black := 0 }] } :
        ExplorerResponse).moves.filter (fun x => 0 < mGames x) =
          before ++ { uci := "b7b6", san := "b6", white := 90, draws := 0, black := 0 } :: after ∧
      (∀ x ∈ before,
        mGames x < mGames { uci := "b7b6", san := "b6", white := 90, draws := 0, black := 0 }) ∧
      (∀ x ∈ after,
        mGames x ≤ mGames { uci := "b7b6", san := "b6", white := 90, draws := 0, black := 0 })) :=
  ⟨by decide,
    always_most_common_deterministic_c6.2.2.1 _ 10 0 _ (by decide)⟩

/-! ## Claim C5: threshold filtering and the fallback pool -/

/-- The 5% / 95% candidate pool of the claim, with a positive aggregate
total of 100 games. -/
def poolFiveNinetyFive : ExplorerResponse :=
  { white := 100, draws := 0, black := 0
    moves := [{ uci := "a2a3", san := "a3", white := 5, draws := 0, black := 0 },
              { uci := "b2b3", san := "b3", white := 95, draws := 0, black := 0 }] }

/-- The 50% / 50% candidate pool of the claim. -/
def poolFiftyFifty : ExplorerResponse :=
  { white := 100, draws := 0, black := 0
    moves := [{ uci := "a2a3", san := "a3", white := 50, draws := 0, black := 0 },
              { uci := "b2b3", san := "b3", white := 50, draws := 0, black := 0 }] }

/-- Counterexample for C5 as stated: with rates 5% and 95% against a 10%
threshold, the 95% candidate clears the threshold, so the filtered pool
is nonempty and `chooseWeightedMove` does **not** fall back to the full
pool (`usedFallbackPool` is `false`, not `true`). -/
theorem threshold_fallback_c5_counterexample :
    ¬ ((chooseWeightedMove poolFiveNinetyFive 10 false 0).usedFallbackPool = true) := by
  norm_num [chooseWeightedMove, toWeighted, mGames, poolFiveNinetyFive, selectByWeight,
    show ((0:ℚ) ⊔ 10) = 10 from by norm_num]

/-- C5 (amended): with rates {5%, 95%} and threshold 10%, only the 95%
candidate clears the threshold, so the pool is that single candidate,
it is always selected, and no fallback occurs (`usedFallbackPool =
false`); with rates {50%, 50%} both candidates clear the threshold and
no fallback occurs either. -/
theorem threshold_fallback_c5 :
    (∀ u : ℚ,
      (chooseWeightedMove poolFiveNinetyFive 10 false u).usedFallbackPool = false ∧
      (chooseWeightedMove poolFiveNinetyFive 10 false u).selected =
        some { uci := "b2b3", san := "b3", white := 95, draws := 0, black := 0 }) ∧
    (∀ u : ℚ,
      (chooseWeightedMove poolFiftyFifty 10 false u).usedFallbackPool = false) := by
  constructor
  · intro u
    norm_num [chooseWeightedMove, toWeighted, mGames, poolFiveNinetyFive, selectByWeight,
      show ((0:ℚ) ⊔ 10) = 10 from by norm_num]
    split
    · rename_i entry heq
      split at heq
      · injection heq with h
        rw [← h]
        exact ⟨rfl, rfl⟩
      · exact absurd heq (by simp)
    · simp
  · intro u
    norm_num [chooseWeightedMove, toWeighted, mGames, poolFiftyFifty, selectByWeight,
      show ((0:ℚ) ⊔ 10) = 10 from by norm_num]
    split
    · rename_i entry heq
      split at heq
      · injection heq with h
        rw [← h]
      · split at heq
        · injection heq with h
          rw [← h]
        · exact absurd heq (by simp)
    · simp

/-! ## Claim C2: `buildRankedMoves` ranking, stability, rates -/

/-- One-based positions of the enumeration are the contiguous range. -/
theorem enumFrom_map_rank {α : Type} :
    ∀ (l : List α) (n : Nat),
      (l.enumFrom n).map (fun p => p.1 + 1) = List.range' (n + 1) l.length
  | [], _ => rfl
  | a :: l, n => by
    simp only [List.enumFrom_cons, List.map_cons, List.length_cons, List.range'_succ]
    rw [enumFrom_map_rank l (n + 1)]

/-- Dropping the zero entries of a list of naturals does not change its
sum. -/
theorem nat_filter_pos_sum : ∀ l : List Nat, (l.filter fun x => 0 < x).sum = l.sum
  | [] => rfl
  | a :: l => by
    by_cases h : 0 < a
    · simp [List.filter_cons, h, nat_filter_pos_sum l]
    · have ha : a = 0 := by omega
      simp [List.filter_cons, ha, nat_filter_pos_sum l]

/-- A common divisor distributes over a mapped list sum. -/
theorem sum_map_div (l : List ℚ) (c : ℚ) : (l.map fun x => x / c).sum = l.sum / c := by
  induction l with
  | nil => simp
  | cons a l ih => simp [ih, add_div]

/-- The comparison used to embed the source's stable descending sort. -/
theorem descending_le_trans (a b c : ExplorerMove × Nat) :
    decide (b.2 ≤ a.2) → decide (c.2 ≤ b.2) → decide (c.2 ≤ a.2) := by
  simp only [decide_eq_true_eq]
  omega

theorem descending_le_total (a b : ExplorerMove × Nat) :
    decide (b.2 ≤ a.2) || decide (a.2 ≤ b.2) := by
  rcases Nat.le_total a.2 b.2 with h | h <;> simp [h]

/-- The ranks of `buildRankedMoves` are exactly `1..N`. -/
theorem buildRankedMoves_ranks (explorer : ExplorerResponse) :
    (buildRankedMoves explorer).map RankedMove.rank =
      List.range' 1 (buildRankedMoves explorer).length := by
  simp only [buildRankedMoves]
  rw [List.map_map, List.length_map]
  show (List.enum _).map (fun p => p.1 + 1) = _
  rw [List.enum, enumFrom_map_rank, List.enumFrom_length]

/-- The filtered-and-paired candidate list underlying `buildRankedMoves`
is the image of the nonzero-candidate list under the pairing map. -/
theorem base_pairs_eq (explorer : ExplorerResponse) :
    ((explorer.moves.map fun move => (move, mGames move)).filter fun entry => 0 < entry.2) =
      (explorer.moves.filter fun m => 0 < mGames m).map fun m => (m, mGames m) := by
  rw [List.filter_map]
  rfl

/-- `buildRankedMoves` keeps exactly the candidates with nonzero games:
one output per nonzero candidate, and every output has positive games. -/
theorem buildRankedMoves_nonzero (explorer : ExplorerResponse) :
    (buildRankedMoves explorer).length =
      (explorer.moves.filter fun m => 0 < mGames m).length ∧
    ∀ e ∈ buildRankedMoves explorer, 0 < e.games := by
  simp only [buildRankedMoves]
  constructor
  · rw [List.length_map, List.enum, List.enumFrom_length,
      (List.mergeSort_perm _ _).length_eq, base_pairs_eq, List.length_map]
  · intro e he
    obtain ⟨p, hp, hpe⟩ := List.mem_map.mp he
    have hsnd : p.2 ∈ (((explorer.moves.map fun move => (move, mGames move)).filter
        fun entry => 0 < entry.2).mergeSort fun a b => decide (b.2 ≤ a.2)) := by
      have := List.mem_map_of_mem Prod.snd hp
      rwa [List.enum, List.enumFrom_map_snd] at this
    have hbase : p.2 ∈ (explorer.moves.map fun move => (move, mGames move)).filter
        fun entry => 0 < entry.2 := List.mem_mergeSort.mp hsnd
    have hpos := List.of_mem_filter hbase
    rw [← hpe]
    simpa using hpos

/-- `buildRankedMoves` is sorted descending by game count. -/
theorem buildRankedMoves_sorted (explorer : ExplorerResponse) :
    (buildRankedMoves explorer).Pairwise fun a b => b.games ≤ a.games := by
  simp only [buildRankedMoves]
  rw [List.pairwise_map]
  have hsorted := List.sorted_mergeSort descending_le_trans descending_le_total
    ((explorer.moves.map fun move => (move, mGames move)).filter fun entry => 0 < entry.2)
  have hmapped : List.Pairwise (fun a b => decide (b.2 ≤ a.2) = true)
      ((List.enum (((explorer.moves.map fun move => (move, mGames move)).filter
        fun entry => 0 < entry.2).mergeSort fun a b => decide (b.2 ≤ a.2))).map
          Prod.snd) := by
    rw [List.enum, List.enumFrom_map_snd]
    exact hsorted
  have henum := List.pairwise_map.mp hmapped
  refine henum.imp ?_
  intro p q h
  simpa using h

/-- Filtering the enumerated sorted list on a tied game count and
reading off token and notation ignores the attached indices. -/
theorem enumFrom_filter_games (g : Nat) :
    ∀ (S : List (ExplorerMove × Nat)) (n : Nat),
      (((S.enumFrom n).filter fun q => q.2.2 = g).map
          fun q => (normalizeCastlingUci q.2.1.uci, q.2.1.san)) =
        ((S.filter fun e => e.2 = g).map fun e => (normalizeCastlingUci e.1.uci, e.1.san))
  | [], _ => rfl
  | e :: S, n => by
    simp only [List.enumFrom_cons, List.filter_cons]
    by_cases h : e.2 = g
    · simp [h, enumFrom_filter_games g S (n + 1)]
    · simp [h, enumFrom_filter_games g S (n + 1)]

/-- Stability of the embedded sort: entries with a tied game count come
out of the sort in their original order (the whole tied slice of the
sorted list equals the tied slice of the input). -/
theorem mergeSort_filter_tied (base : List (ExplorerMove × Nat)) (g : Nat) :
    ((base.mergeSort fun a b => decide (b.2 ≤ a.2)).filter fun e => e.2 = g) =
      base.filter fun e => e.2 = g := by
  have hpair : (base.filter fun e => e.2 = g).Pairwise
      (fun a b => (decide (b.2 ≤ a.2)) = true) := by
    apply List.pairwise_of_forall_mem_list
    intro a ha b hb
    have ha' := List.of_mem_filter ha
    have hb' := List.of_mem_filter hb
    simp only [decide_eq_true_eq] at ha' hb' ⊢
    omega
  have hsub : List.Sublist (base.filter fun e => e.2 = g)
      (base.mergeSort fun a b => decide (b.2 ≤ a.2)) :=
    List.sublist_mergeSort descending_le_trans descending_le_total hpair
      (List.filter_sublist base)
  have hself : ((base.filter fun e => e.2 = g).filter fun e => e.2 = g) =
      (base.filter fun e => e.2 = g) := by
    rw [List.filter_eq_self]
    intro a ha
    simp only [List.mem_filter] at ha
    exact ha.2
  have hsub2 : List.Sublist (base.filter fun e => e.2 = g)
      ((base.mergeSort fun a b => decide (b.2 ≤ a.2)).filter fun e => e.2 = g) := by
    have hh := hsub.filter (fun e => decide (e.2 = g))
    rwa [hself] at hh
  have hperm : List.Perm
      ((base.mergeSort fun a b => decide (b.2 ≤ a.2)).filter fun e => e.2 = g)
      (base.filter fun e => e.2 = g) :=
    (List.mergeSort_perm base _).filter _
  exact (hsub2.eq_of_length hperm.length_eq.symm).symm

/-- Ties in `buildRankedMoves` keep snapshot order: for every game count
`g`, the tied slice of the output lists the same moves, in the same
order, as the tied slice of the nonzero candidates in snapshot order. -/
theorem buildRankedMoves_stable (explorer : ExplorerResponse) (g : Nat) :
    (((buildRankedMoves explorer).filter fun e => e.games = g).map fun e => (e.uci, e.san)) =
      (((explorer.moves.filter fun m => 0 < mGames m).filter fun m => mGames m = g).map
        fun m => (normalizeCastlingUci m.uci, m.san)) := by
  simp only [buildRankedMoves]
  rw [List.filter_map, List.map_map]
  simp only [Function.comp_def]
  rw [List.enum, enumFrom_filter_games, mergeSort_filter_tied, base_pairs_eq,
    List.filter_map, List.map_map]
  rfl

/-- Mapping a function of the underlying element over an enumeration is
mapping it over the underlying list. -/
theorem map_enumFrom_snd {α β : Type} (f : α → β) :
    ∀ (l : List α) (n : Nat), ((l.enumFrom n).map fun q => f q.2) = l.map f
  | [], _ => rfl
  | a :: l, n => by
    simp only [List.enumFrom_cons, List.map_cons]
    rw [map_enumFrom_snd f l (n + 1)]

/-- The games of the sorted nonzero candidates sum to the games of all
candidates (a permutation of the nonzero ones; zero entries add 0). -/
theorem sorted_games_sum (explorer : ExplorerResponse) :
    (((((explorer.moves.map fun move => (move, mGames move)).filter
        fun entry => 0 < entry.2).mergeSort fun a b => decide (b.2 ≤ a.2)).map
          fun entry => entry.2).sum) =
      (explorer.moves.map mGames).sum := by
  have hperm := List.mergeSort_perm
    ((explorer.moves.map fun move => (move, mGames move)).filter fun entry => 0 < entry.2)
    (fun a b => decide (b.2 ≤ a.2))
  rw [(hperm.map fun entry => entry.2).sum_eq, base_pairs_eq, List.map_map]
  show ((explorer.moves.filter fun m => 0 < mGames m).map mGames).sum = _
  rw [← nat_filter_pos_sum (explorer.moves.map mGames), List.filter_map]
  rfl

/-- Dividing each mapped game count by a common denominator and summing
is dividing the summed game counts. -/
theorem games_div_sum (S : List (ExplorerMove × Nat)) (D : Nat) :
    (S.map fun e => (e.2 : ℚ) / (D : ℚ)).sum =
      (((S.map fun e => e.2).sum : ℕ) : ℚ) / (D : ℚ) := by
  induction S with
  | nil => simp
  | cons a S ih =>
    simp only [List.map_cons, List.sum_cons, ih, Nat.cast_add, add_div]

/-- The rate of every ranked move follows the denominator rule: games
over the aggregate total when positive, else games over the sum of the
candidates' game counts, else 0. -/
theorem buildRankedMoves_rate (explorer : ExplorerResponse) :
    ∀ e ∈ buildRankedMoves explorer,
      e.rate =
        if 0 < explorer.white + explorer.draws + explorer.black then
          (e.games : ℚ) / ((explorer.white + explorer.draws + explorer.black : ℕ) : ℚ)
        else if 0 < (explorer.moves.map mGames).sum then
          (e.games : ℚ) / (((explorer.moves.map mGames).sum : ℕ) : ℚ)
        else 0 := by
  intro e he
  simp only [buildRankedMoves] at he
  obtain ⟨p, hp, hpe⟩ := List.mem_map.mp he
  rw [← hpe]
  show (if 0 < (if 0 < explorer.white + explorer.draws + explorer.black then
        explorer.white + explorer.draws + explorer.black
      else ((((explorer.moves.map fun move => (move, mGames move)).filter
          fun entry => 0 < entry.2).mergeSort fun a b => decide (b.2 ≤ a.2)).map
            fun entry => entry.2).sum) then
      (p.2.2 : ℚ) / ((if 0 < explorer.white + explorer.draws + explorer.black then
        explorer.white + explorer.draws + explorer.black
      else ((((explorer.moves.map fun move => (move, mGames move)).filter
          fun entry => 0 < entry.2).mergeSort fun a b => decide (b.2 ≤ a.2)).map
            fun entry => entry.2).sum : ℕ) : ℚ)
    else 0) = _
  rw [sorted_games_sum]
  by_cases hagg : 0 < explorer.white + explorer.draws + explorer.black
  · rw [if_pos hagg, if_pos hagg, if_pos hagg]
  · rw [if_neg hagg, if_neg hagg]

/-- Dividing each element of a list of naturals by a common denominator
and summing is dividing the sum. -/
theorem rat_cast_sum_div (t : List Nat) (D : Nat) :
    (t.map fun g : ℕ => (g : ℚ) / (D : ℚ)).sum = ((t.sum : ℕ) : ℚ) / (D : ℚ) := by
  induction t with
  | nil => simp
  | cons a t ih =>
    simp only [List.map_cons, List.sum_cons, ih, Nat.cast_add, add_div]

/-- Under a consistent snapshot (aggregate total absent, or at least the
candidates' total games), the rates sum to at most 1. -/
theorem buildRankedMoves_rate_sum (explorer : ExplorerResponse)
    (hprovider : explorer.white + explorer.draws + explorer.black = 0 ∨
      (explorer.moves.map mGames).sum ≤ explorer.white + explorer.draws + explorer.black) :
    ((buildRankedMoves explorer).map RankedMove.rate).sum ≤ 1 := by
  have hMg : (buildRankedMoves explorer).map RankedMove.games =
      ((((explorer.moves.map fun move => (move, mGames move)).filter
          fun entry => 0 < entry.2).mergeSort fun a b => decide (b.2 ≤ a.2)).map
        fun entry => entry.2) := by
    simp only [buildRankedMoves]
    rw [List.map_map, List.enum]
    exact map_enumFrom_snd (fun e : ExplorerMove × Nat => e.2) _ 0
  have h1 : (buildRankedMoves explorer).map RankedMove.rate =
      ((buildRankedMoves explorer).map RankedMove.games).map fun g : ℕ =>
        if 0 < explorer.white + explorer.draws + explorer.black then
          (g : ℚ) / ((explorer.white + explorer.draws + explorer.black : ℕ) : ℚ)
        else if 0 < (explorer.moves.map mGames).sum then
          (g : ℚ) / (((explorer.moves.map mGames).sum : ℕ) : ℚ)
        else 0 := by
    rw [List.map_map]
    exact List.map_congr_left fun e he => buildRankedMoves_rate explorer e he
  rw [h1, hMg]
  by_cases hagg : 0 < explorer.white + explorer.draws + explorer.black
  · simp only [if_pos hagg]
    rw [rat_cast_sum_div, sorted_games_sum]
    rcases hprovider with h0 | hle
    · exact absurd h0 (by omega)
    · rw [div_le_one (by exact_mod_cast hagg)]
      exact_mod_cast hle
  · simp only [if_neg hagg]
    by_cases hmsum : 0 < (explorer.moves.map mGames).sum
    · simp only [if_pos hmsum]
      rw [rat_cast_sum_div, sorted_games_sum]
      rw [div_self (by exact_mod_cast Nat.pos_iff_ne_zero.mp hmsum)]
    · simp only [if_neg hmsum]
      simp only [Function.comp_def, List.map_const', List.sum_replicate, smul_zero]
      norm_num

/-- C2 (amended): `buildRankedMoves` drops zero-game candidates, sorts
descending by game count with ties in snapshot order, assigns ranks
exactly 1..N, computes rates by the aggregate-else-candidate-sum
denominator rule (0 when the denominator is 0); and the rates sum to at
most 1 provided the snapshot is consistent: its aggregate total is
absent (not positive) or at least the candidates' total games. -/
theorem buildRankedMoves_spec_c2 (explorer : ExplorerResponse)
    (hprovider : explorer.white + explorer.draws + explorer.black = 0 ∨
      (explorer.moves.map mGames).sum ≤ explorer.white + explorer.draws + explorer.black) :
    (buildRankedMoves explorer).map RankedMove.rank =
        List.range' 1 (buildRankedMoves explorer).length ∧
    (buildRankedMoves explorer).length =
        (explorer.moves.filter fun m => 0 < mGames m).length ∧
    (∀ e ∈ buildRankedMoves explorer, 0 < e.games) ∧
    ((buildRankedMoves explorer).Pairwise fun a b => b.games ≤ a.games) ∧
    (∀ g : Nat,
      (((buildRankedMoves explorer).filter fun e => e.games = g).map
          fun e => (e.uci, e.san)) =
        (((explorer.moves.filter fun m => 0 < mGames m).filter fun m => mGames m = g).map
          fun m => (normalizeCastlingUci m.uci, m.san))) ∧
    (∀ e ∈ buildRankedMoves explorer,
      e.rate =
        if 0 < explorer.white + explorer.draws + explorer.black then
          (e.games : ℚ) / ((explorer.white + explorer.draws + explorer.black : ℕ) : ℚ)
        else if 0 < (explorer.moves.map mGames).sum then
          (e.games : ℚ) / (((explorer.moves.map mGames).sum : ℕ) : ℚ)
        else 0) ∧
    ((buildRankedMoves explorer).map RankedMove.rate).sum ≤ 1 :=
  ⟨buildRankedMoves_ranks explorer, (buildRankedMoves_nonzero explorer).1,
    (buildRankedMoves_nonzero explorer).2, buildRankedMoves_sorted explorer,
    buildRankedMoves_stable explorer, buildRankedMoves_rate explorer,
    buildRankedMoves_rate_sum explorer hprovider⟩

/-- A snapshot whose positive aggregate total (1) is smaller than its
single candidate's game count (100). -/
def inconsistentSnapshot : ExplorerResponse :=
  { white := 1, draws := 0, black := 0,
    moves := [{ uci := "a2a3", san := "a3", white := 100, draws := 0, black := 0 }] }

/-- A snapshot with no aggregate counts and one two-game candidate. -/
def omittedTotalsSnapshot : ExplorerResponse :=
  { white := 0, draws := 0, black := 0,
    moves := [{ uci := "g1f3", san := "Nf3", white := 2, draws := 0, black := 0 }] }

/-- Counterexample for C2 as stated: a snapshot whose positive aggregate
total (1) is smaller than its single candidate's 100 games yields a rate
of 100, so the sum of rates is 100, far above 1 + ε. -/
theorem buildRankedMoves_sum_c2_counterexample :
    ((buildRankedMoves inconsistentSnapshot).map RankedMove.rate).sum = 100 ∧
    ¬ (((buildRankedMoves inconsistentSnapshot).map RankedMove.rate).sum ≤ 1 + 1 / 100) := by
  constructor <;>
    norm_num [buildRankedMoves, inconsistentSnapshot, mGames, List.enum_cons]

/-- Witness for C2: `omittedTotalsSnapshot` satisfies the consistency
hypothesis (aggregate total 0), and the amended specification holds for
it; in particular its rates sum to at most 1. -/
theorem buildRankedMoves_spec_c2_witness :
    (omittedTotalsSnapshot.white + omittedTotalsSnapshot.draws +
        omittedTotalsSnapshot.black = 0 ∨
      (omittedTotalsSnapshot.moves.map mGames).sum ≤
        omittedTotalsSnapshot.white + omittedTotalsSnapshot.draws +
          omittedTotalsSnapshot.black) ∧
    ((buildRankedMoves omittedTotalsSnapshot).map RankedMove.rate).sum ≤ 1 :=
  ⟨Or.inl rfl,
    (buildRankedMoves_spec_c2 omittedTotalsSnapshot (Or.inl rfl)).2.2.2.2.2.2⟩

/-! ## Claim C4: grading and alternatives in `buildMoveReview` -/

/-- C4: the grade is `"!!"` exactly when the played move appears in the
ranked list and the top entry's rate exceeds the played rate by at most
0.05; otherwise `"✓"` exactly when the played rate reaches 0.10;
otherwise `"x"`; an unranked move's rate is taken as 0; the best move is
the head of the ranked list; and the alternatives are exactly the ranked
moves with rank other than 1 and rate at least 0.10. -/
theorem buildMoveReview_grades_c4 (rankedMoves : List RankedMove) (playedMove : Move)
    (sideToMove : PlayerColor) :
    ((buildMoveReview rankedMoves playedMove sideToMove).grade = "!!" ↔
      (∃ e ∈ rankedMoves, e.uci = toUci playedMove) ∧
        ((rankedMoves.head?.map fun e => e.rate).getD 0) -
          (buildMoveReview rankedMoves playedMove sideToMove).playedRate ≤ 0.05) ∧
    ((buildMoveReview rankedMoves playedMove sideToMove).grade = "✓" ↔
      ¬ ((∃ e ∈ rankedMoves, e.uci = toUci playedMove) ∧
        ((rankedMoves.head?.map fun e => e.rate).getD 0) -
          (buildMoveReview rankedMoves playedMove sideToMove).playedRate ≤ 0.05) ∧
      ALTERNATIVE_RATE ≤ (buildMoveReview rankedMoves playedMove sideToMove).playedRate) ∧
    ((buildMoveReview rankedMoves playedMove sideToMove).grade = "x" ↔
      ¬ ((∃ e ∈ rankedMoves, e.uci = toUci playedMove) ∧
        ((rankedMoves.head?.map fun e => e.rate).getD 0) -
          (buildMoveReview rankedMoves playedMove sideToMove).playedRate ≤ 0.05) ∧
      (buildMoveReview rankedMoves playedMove sideToMove).playedRate < ALTERNATIVE_RATE) ∧
    ((∀ e ∈ rankedMoves, e.uci ≠ toUci playedMove) →
      (buildMoveReview rankedMoves playedMove sideToMove).playedRate = 0) ∧
    ((buildMoveReview rankedMoves playedMove sideToMove).bestMove = rankedMoves.head?) ∧
    ((buildMoveReview rankedMoves playedMove sideToMove).alternatives =
      rankedMoves.filter fun e => e.rank ≠ 1 ∧ ALTERNATIVE_RATE ≤ e.rate) := by
  have hsome : (rankedMoves.find? fun e => e.uci = toUci playedMove).isSome ↔
      ∃ e ∈ rankedMoves, e.uci = toUci playedMove := by
    rw [List.find?_isSome]
    simp
  have hgrade : (buildMoveReview rankedMoves playedMove sideToMove).grade =
      (if (rankedMoves.find? fun e => e.uci = toUci playedMove).isSome ∧
          ((rankedMoves.head?.map fun e => e.rate).getD 0) -
            (((rankedMoves.find? fun e => e.uci = toUci playedMove).map
              fun e => e.rate).getD 0) ≤ (0.05 : ℚ) then "!!"
        else if ALTERNATIVE_RATE ≤
            (((rankedMoves.find? fun e => e.uci = toUci playedMove).map
              fun e => e.rate).getD 0) then "✓"
        else "x") := rfl
  have hprate : (buildMoveReview rankedMoves playedMove sideToMove).playedRate =
      (((rankedMoves.find? fun e => e.uci = toUci playedMove).map
        fun e => e.rate).getD 0) := rfl
  refine ⟨?_, ?_, ?_, ?_, rfl, rfl⟩
  · rw [hgrade, hprate]
    by_cases h : (rankedMoves.find? fun e => e.uci = toUci playedMove).isSome ∧
        ((rankedMoves.head?.map fun e => e.rate).getD 0) -
          (((rankedMoves.find? fun e => e.uci = toUci playedMove).map
            fun e => e.rate).getD 0) ≤ (0.05 : ℚ)
    · rw [if_pos h]
      exact iff_of_true rfl ⟨hsome.mp h.1, h.2⟩
    · rw [if_neg h]
      refine iff_of_false ?_ fun hc => h ⟨hsome.mpr hc.1, hc.2⟩
      by_cases h2 : ALTERNATIVE_RATE ≤
          (((rankedMoves.find? fun e => e.uci = toUci playedMove).map
            fun e => e.rate).getD 0)
      · rw [if_pos h2]
        decide
      · rw [if_neg h2]
        decide
  · rw [hgrade, hprate]
    by_cases h : (rankedMoves.find? fun e => e.uci = toUci playedMove).isSome ∧
        ((rankedMoves.head?.map fun e => e.rate).getD 0) -
          (((rankedMoves.find? fun e => e.uci = toUci playedMove).map
            fun e => e.rate).getD 0) ≤ (0.05 : ℚ)
    · rw [if_pos h]
      exact iff_of_false (by decide) fun hc => hc.1 ⟨hsome.mp h.1, h.2⟩
    · rw [if_neg h]
      by_cases h2 : ALTERNATIVE_RATE ≤
          (((rankedMoves.find? fun e => e.uci = toUci playedMove).map
            fun e => e.rate).getD 0)
      · rw [if_pos h2]
        exact iff_of_true rfl ⟨fun hc => h ⟨hsome.mpr hc.1, hc.2⟩, h2⟩
      · rw [if_neg h2]
        exact iff_of_false (by decide) fun hc => h2 hc.2
  · rw [hgrade, hprate]
    by_cases h : (rankedMoves.find? fun e => e.uci = toUci playedMove).isSome ∧
        ((rankedMoves.head?.map fun e => e.rate).getD 0) -
          (((rankedMoves.find? fun e => e.uci = toUci playedMove).map
            fun e => e.rate).getD 0) ≤ (0.05 : ℚ)
    · rw [if_pos h]
      exact iff_of_false (by decide) fun hc => hc.1 ⟨hsome.mp h.1, h.2⟩
    · rw [if_neg h]
      by_cases h2 : ALTERNATIVE_RATE ≤
          (((rankedMoves.find? fun e => e.uci = toUci playedMove).map
            fun e => e.rate).getD 0)
      · rw [if_pos h2]
        exact iff_of_false (by decide) fun hc => absurd h2 (not_le.mpr hc.2)
      · rw [if_neg h2]
        exact iff_of_true rfl ⟨fun hc => h ⟨hsome.mpr hc.1, hc.2⟩, not_le.mp h2⟩
  · intro hnone
    rw [hprate]
    have : (rankedMoves.find? fun e => e.uci = toUci playedMove) = none := by
      rw [List.find?_eq_none]
      intro e he
      simpa using hnone e he
    rw [this]
    rfl

/-- The spec's example ranked list: rates 0.40, 0.38, 0.05. -/
def sampleRankedList : List RankedMove :=
  [{ rank := 1, uci := "d2d4", san := "d4", games := 40, rate := 0.40 },
   { rank := 2, uci := "g1f3", san := "Nf3", games := 38, rate := 0.38 },
   { rank := 3, uci := "c2c4", san := "c4", games := 5, rate := 0.05 }]

/-- Witness for C4: the probe move e2e4 is unranked in the sample list,
so its played rate is taken as 0. -/
theorem buildMoveReview_grades_c4_witness :
    (∀ e ∈ sampleRankedList, e.uci ≠ toUci probeMove) ∧
    (buildMoveReview sampleRankedList probeMove .w).playedRate = 0 := by
  have htu : toUci probeMove = "e2e4" := by
    simp only [toUci, normalizeCastlingUci, toLower_eq_map_data, probeMove]
    decide
  have hnone : ∀ e ∈ sampleRankedList, e.uci ≠ toUci probeMove := by
    rw [htu]
    decide
  exact ⟨hnone, (buildMoveReview_grades_c4 sampleRankedList probeMove .w).2.2.2.1 hnone⟩

/-! ## Claims C3 and C10: the `accuracyFromGames` confidence curve -/

theorem logb10_ten : Real.logb 10 10 = 1 := Real.logb_self_eq_one (by norm_num)

theorem logb10_hundred : Real.logb 10 100 = 2 := by
  rw [show (100 : ℝ) = 10 ^ (2 : ℕ) by norm_num, Real.logb_pow,
    Real.logb_self_eq_one (by norm_num)]
  norm_num

theorem logb10_thousand : Real.logb 10 1000 = 3 := by
  rw [show (1000 : ℝ) = 10 ^ (3 : ℕ) by norm_num, Real.logb_pow,
    Real.logb_self_eq_one (by norm_num)]
  norm_num

theorem logb10_tenThousand : Real.logb 10 10000 = 4 := by
  rw [show (10000 : ℝ) = 10 ^ (4 : ℕ) by norm_num, Real.logb_pow,
    Real.logb_self_eq_one (by norm_num)]
  norm_num

/-- The two anchor logs of a nondegenerate segment differ, so
`interpolateLogScale` takes its interpolation branch. -/
theorem interpolate_formula (value lowGames highGames lowPercent highPercent : ℝ)
    (hlo : 0 < lowGames) (hlohi : lowGames < highGames) :
    interpolateLogScale value lowGames highGames lowPercent highPercent =
      lowPercent +
        (Real.logb 10 (min highGames (max lowGames value)) - Real.logb 10 lowGames) /
          (Real.logb 10 highGames - Real.logb 10 lowGames) * (highPercent - lowPercent) := by
  have hne : Real.logb 10 highGames ≠ Real.logb 10 lowGames :=
    ne_of_gt (Real.logb_lt_logb (by norm_num) hlo hlohi)
  simp only [interpolateLogScale, if_neg hne]

/-- Within a nondegenerate segment the interpolation is monotone in the
value (for nondecreasing anchor percentages). -/
theorem interpolate_mono (lowGames highGames lowPercent highPercent : ℝ)
    (hlo : 0 < lowGames) (hlohi : lowGames < highGames) (hp : lowPercent ≤ highPercent)
    {x y : ℝ} (hxy : x ≤ y) :
    interpolateLogScale x lowGames highGames lowPercent highPercent ≤
      interpolateLogScale y lowGames highGames lowPercent highPercent := by
  rw [interpolate_formula _ _ _ _ _ hlo hlohi, interpolate_formula _ _ _ _ _ hlo hlohi]
  have hclx : 0 < min highGames (max lowGames x) :=
    lt_min (lt_trans hlo hlohi) (lt_of_lt_of_le hlo (le_max_left _ _))
  have hcl : min highGames (max lowGames x) ≤ min highGames (max lowGames y) :=
    min_le_min (le_refl _) (max_le_max (le_refl _) hxy)
  have hlog := Real.logb_le_logb_of_le (by norm_num : (1:ℝ) < 10) hclx hcl
  have hd : 0 < Real.logb 10 highGames - Real.logb 10 lowGames :=
    sub_pos.mpr (Real.logb_lt_logb (by norm_num) hlo hlohi)
  have hgap : 0 ≤ highPercent - lowPercent := sub_nonneg.mpr hp
  gcongr

/-- Within a nondegenerate segment the interpolation stays between the
two anchor percentages. -/
theorem interpolate_bounds (value lowGames highGames lowPercent highPercent : ℝ)
    (hlo : 0 < lowGames) (hlohi : lowGames < highGames) (hp : lowPercent ≤ highPercent) :
    lowPercent ≤ interpolateLogScale value lowGames highGames lowPercent highPercent ∧
      interpolateLogScale value lowGames highGames lowPercent highPercent ≤ highPercent := by
  rw [interpolate_formula _ _ _ _ _ hlo hlohi]
  have hhi : 0 < highGames := lt_trans hlo hlohi
  have hclo : lowGames ≤ min highGames (max lowGames value) :=
    le_min (le_of_lt hlohi) (le_max_left _ _)
  have hchi : min highGames (max lowGames value) ≤ highGames := min_le_left _ _
  have hclx : 0 < min highGames (max lowGames value) := lt_of_lt_of_le hlo hclo
  have hlog1 := Real.logb_le_logb_of_le (by norm_num : (1:ℝ) < 10) hlo hclo
  have hlog2 := Real.logb_le_logb_of_le (by norm_num : (1:ℝ) < 10) hclx hchi
  have hd : 0 < Real.logb 10 highGames - Real.logb 10 lowGames :=
    sub_pos.mpr (Real.logb_lt_logb (by norm_num) hlo hlohi)
  have hr0 : 0 ≤ (Real.logb 10 (min highGames (max lowGames value)) -
      Real.logb 10 lowGames) / (Real.logb 10 highGames - Real.logb 10 lowGames) :=
    div_nonneg (sub_nonneg.mpr hlog1) (le_of_lt hd)
  have hr1 : (Real.logb 10 (min highGames (max lowGames value)) -
      Real.logb 10 lowGames) / (Real.logb 10 highGames - Real.logb 10 lowGames) ≤ 1 := by
    rw [div_le_one hd]
    exact sub_le_sub_right hlog2 _
  constructor
  · nlinarith
  · nlinarith

theorem accuracy_top (t : ℝ) (h : 10000 ≤ t) : accuracyFromGames t = 100 := by
  rw [accuracyFromGames, if_pos h]

theorem accuracy_seg3 (t : ℝ) (h1 : 1000 ≤ t) (h2 : t < 10000) :
    accuracyFromGames t = interpolateLogScale t 1000 10000 50 100 := by
  rw [accuracyFromGames, if_neg (not_le.mpr h2), if_pos h1]

theorem accuracy_seg2 (t : ℝ) (h1 : 100 ≤ t) (h2 : t < 1000) :
    accuracyFromGames t = interpolateLogScale t 100 1000 25 50 := by
  rw [accuracyFromGames, if_neg (not_le.mpr (by linarith : t < 10000)),
    if_neg (not_le.mpr h2), if_pos h1]

theorem accuracy_seg1 (t : ℝ) (h1 : 11 ≤ t) (h2 : t < 100) :
    accuracyFromGames t = interpolateLogScale t 11 100 0.99 25 := by
  rw [accuracyFromGames, if_neg (not_le.mpr (by linarith : t < 10000)),
    if_neg (not_le.mpr (by linarith : t < 1000)), if_neg (not_le.mpr h2), if_pos h1]

theorem accuracy_low (t : ℝ) (h : t ≤ 10) : accuracyFromGames t = 1 := by
  rw [accuracyFromGames, if_neg (not_le.mpr (by linarith : t < 10000)),
    if_neg (not_le.mpr (by linarith : t < 1000)),
    if_neg (not_le.mpr (by linarith : t < 100)),
    if_neg (not_le.mpr (by linarith : t < 11)), if_pos h]

theorem accuracy_gap (t : ℝ) (h1 : 10 < t) (h2 : t < 11) : accuracyFromGames t = 100 := by
  rw [accuracyFromGames, if_neg (not_le.mpr (by linarith : t < 10000)),
    if_neg (not_le.mpr (by linarith : t < 1000)),
    if_neg (not_le.mpr (by linarith : t < 100)),
    if_neg (not_le.mpr h2), if_neg (not_le.mpr h1)]

theorem accuracy_at_hundred : accuracyFromGames 100 = 25 := by
  rw [accuracy_seg2 100 (le_refl _) (by norm_num),
    interpolate_formula _ _ _ _ _ (by norm_num) (by norm_num)]
  rw [show min (1000:ℝ) (max 100 100) = 100 by norm_num]
  norm_num

theorem accuracy_at_thousand : accuracyFromGames 1000 = 50 := by
  rw [accuracy_seg3 1000 (le_refl _) (by norm_num),
    interpolate_formula _ _ _ _ _ (by norm_num) (by norm_num)]
  rw [show min (10000:ℝ) (max 1000 1000) = 1000 by norm_num]
  norm_num

theorem accuracy_at_tenThousand : accuracyFromGames 10000 = 100 :=
  accuracy_top 10000 (le_refl _)

theorem accuracy_at_eleven : accuracyFromGames 11 = 0.99 := by
  rw [accuracy_seg1 11 (le_refl _) (by norm_num),
    interpolate_formula _ _ _ _ _ (by norm_num) (by norm_num)]
  rw [show min (100:ℝ) (max 11 11) = 11 by norm_num]
  norm_num

theorem accuracy_at_ten : accuracyFromGames 10 = 1 := accuracy_low 10 (le_refl _)

/-- C10: any real sample size strictly between 10 and 11 falls through
every branch of `accuracyFromGames` and returns 100, although the
function returns 1 at 10 and 0.99 at 11; no integer input can reach that
final branch. -/
theorem accuracy_fallthrough_c10 :
    (∀ g : ℝ, 10 < g → g < 11 → accuracyFromGames g = 100) ∧
    accuracyFromGames 10 = 1 ∧
    accuracyFromGames 11 = 0.99 ∧
    (∀ n : ℤ, (n : ℝ) ≤ 10 ∨ 11 ≤ (n : ℝ)) := by
  refine ⟨accuracy_gap, accuracy_at_ten, accuracy_at_eleven, ?_⟩
  intro n
  rcases le_or_lt n 10 with h | h
  · exact Or.inl (by exact_mod_cast h)
  · exact Or.inr (by exact_mod_cast h)

/-- Witness for C10: at the real sample size 10.5, the final branch
fires and returns 100. -/
theorem accuracy_fallthrough_c10_witness :
    (10 : ℝ) < 21 / 2 ∧ (21 : ℝ) / 2 < 11 ∧ accuracyFromGames (21 / 2) = 100 :=
  ⟨by norm_num, by norm_num,
    accuracy_fallthrough_c10.1 (21 / 2) (by norm_num) (by norm_num)⟩

/-- Counterexample for C3 as stated: `accuracyFromGames` is not
monotonically non-decreasing over all natural sample sizes — it returns
1 at 10 games but only 0.99 at 11 games. -/
theorem accuracy_monotone_c3_counterexample :
    ((10 : ℕ) : ℝ) ≤ ((11 : ℕ) : ℝ) ∧
      accuracyFromGames ((11 : ℕ) : ℝ) < accuracyFromGames ((10 : ℕ) : ℝ) := by
  constructor
  · norm_num
  · rw [show (((11 : ℕ) : ℝ)) = 11 by norm_num, show (((10 : ℕ) : ℝ)) = 10 by norm_num,
      accuracy_at_eleven, accuracy_at_ten]
    norm_num

/-- `accuracyFromGames` is monotone on sample sizes of at least 11. -/
theorem accuracy_mono_from_eleven {x y : ℝ} (hx : 11 ≤ x) (hxy : x ≤ y) :
    accuracyFromGames x ≤ accuracyFromGames y := by
  rcases le_or_lt 10000 x with h4 | h4
  · rw [accuracy_top x h4, accuracy_top y (le_trans h4 hxy)]
  · rcases le_or_lt 1000 x with h3 | h3
    · rw [accuracy_seg3 x h3 h4]
      rcases le_or_lt 10000 y with hy4 | hy4
      · rw [accuracy_top y hy4]
        exact (interpolate_bounds x 1000 10000 50 100 (by norm_num) (by norm_num)
          (by norm_num)).2
      · rw [accuracy_seg3 y (le_trans h3 hxy) hy4]
        exact interpolate_mono 1000 10000 50 100 (by norm_num) (by norm_num)
          (by norm_num) hxy
    · rcases le_or_lt 100 x with h2 | h2
      · rw [accuracy_seg2 x h2 h3]
        have hub := (interpolate_bounds x 100 1000 25 50 (by norm_num) (by norm_num)
          (by norm_num)).2
        rcases le_or_lt 10000 y with hy4 | hy4
        · rw [accuracy_top y hy4]
          linarith
        · rcases le_or_lt 1000 y with hy3 | hy3
          · rw [accuracy_seg3 y hy3 hy4]
            have hlb := (interpolate_bounds y 1000 10000 50 100 (by norm_num)
              (by norm_num) (by norm_num)).1
            linarith
          · rw [accuracy_seg2 y (le_trans h2 hxy) hy3]
            exact interpolate_mono 100 1000 25 50 (by norm_num) (by norm_num)
              (by norm_num) hxy
      · rw [accuracy_seg1 x hx h2]
        have hub := (interpolate_bounds x 11 100 0.99 25 (by norm_num) (by norm_num)
          (by norm_num)).2
        rcases le_or_lt 10000 y with hy4 | hy4
        · rw [accuracy_top y hy4]
          linarith
        · rcases le_or_lt 1000 y with hy3 | hy3
          · rw [accuracy_seg3 y hy3 hy4]
            have hlb := (interpolate_bounds y 1000 10000 50 100 (by norm_num)
              (by norm_num) (by norm_num)).1
            linarith
          · rcases le_or_lt 100 y with hy2 | hy2
            · rw [accuracy_seg2 y hy2 hy3]
              have hlb := (interpolate_bounds y 100 1000 25 50 (by norm_num)
                (by norm_num) (by norm_num)).1
              linarith
            · rw [accuracy_seg1 y (le_trans hx hxy) hy2]
              exact interpolate_mono 11 100 0.99 25 (by norm_num) (by norm_num)
                (by norm_num) hxy

/-- `interpolateLogScale` over a nondegenerate positive segment is a
continuous function of the value. -/
theorem interpolate_continuousAt (lowGames highGames lowPercent highPercent : ℝ)
    (hlo : 0 < lowGames) (hlohi : lowGames < highGames) (x : ℝ) :
    ContinuousAt (fun v => interpolateLogScale v lowGames highGames lowPercent highPercent)
      x := by
  have heq : (fun v => interpolateLogScale v lowGames highGames lowPercent highPercent) =
      fun v => lowPercent +
        (Real.logb 10 (min highGames (max lowGames v)) - Real.logb 10 lowGames) /
          (Real.logb 10 highGames - Real.logb 10 lowGames) * (highPercent - lowPercent) :=
    funext fun v => interpolate_formula v _ _ _ _ hlo hlohi
  rw [heq]
  have hclamp : Continuous fun v : ℝ => min highGames (max lowGames v) :=
    Continuous.min continuous_const (Continuous.max continuous_const continuous_id)
  have hpos : min highGames (max lowGames x) ≠ 0 := by
    have : 0 < min highGames (max lowGames x) :=
      lt_min (lt_trans hlo hlohi) (lt_of_lt_of_le hlo (le_max_left _ _))
    exact ne_of_gt this
  have hlogc0 : ContinuousAt ((fun w : ℝ => Real.logb 10 w) ∘
      fun v : ℝ => min highGames (max lowGames v)) x :=
    ContinuousAt.comp (Real.continuousAt_logb hpos) hclamp.continuousAt
  have hlogc : ContinuousAt (fun v : ℝ => Real.logb 10 (min highGames (max lowGames v)))
      x := hlogc0
  exact continuousAt_const.add
    (((hlogc.sub continuousAt_const).div_const _).mul continuousAt_const)

/-- Pointwise agreement of adjacent pieces at their shared anchors. -/
theorem interpolate_seg1_at_hundred :
    interpolateLogScale 100 11 100 0.99 25 = 25 := by
  rw [interpolate_formula _ _ _ _ _ (by norm_num) (by norm_num)]
  rw [show min (100:ℝ) (max 11 100) = 100 by norm_num]
  rw [div_self (by
    have := Real.logb_lt_logb (b := 10) (by norm_num) (by norm_num : (0:ℝ) < 11)
      (by norm_num : (11:ℝ) < 100)
    linarith)]
  norm_num

theorem interpolate_seg2_at_thousand :
    interpolateLogScale 1000 100 1000 25 50 = 50 := by
  rw [interpolate_formula _ _ _ _ _ (by norm_num) (by norm_num)]
  rw [show min (1000:ℝ) (max 100 1000) = 1000 by norm_num]
  rw [logb10_thousand, logb10_hundred]
  norm_num

theorem interpolate_seg3_at_tenThousand :
    interpolateLogScale 10000 1000 10000 50 100 = 100 := by
  rw [interpolate_formula _ _ _ _ _ (by norm_num) (by norm_num)]
  rw [show min (10000:ℝ) (max 1000 10000) = 10000 by norm_num]
  rw [logb10_tenThousand, logb10_thousand]
  norm_num

theorem accuracy_continuousAt_hundred : ContinuousAt accuracyFromGames 100 := by
  rw [continuousAt_iff_continuous_left_right]
  constructor
  · have hg : ContinuousWithinAt (fun v => interpolateLogScale v 11 100 0.99 25)
        (Set.Ioc 11 100) 100 :=
      (interpolate_continuousAt 11 100 0.99 25 (by norm_num) (by norm_num)
        100).continuousWithinAt
    have hf : ContinuousWithinAt accuracyFromGames (Set.Ioc 11 100) 100 := by
      refine hg.congr ?_ ?_
      · intro y hy
        rcases eq_or_lt_of_le hy.2 with he | hlt
        · rw [he, accuracy_at_hundred, interpolate_seg1_at_hundred]
        · exact accuracy_seg1 y (le_of_lt hy.1) hlt
      · rw [accuracy_at_hundred, interpolate_seg1_at_hundred]
    refine hf.mono_of_mem_nhdsWithin ?_
    have hmem : Set.Iic (100:ℝ) ∩ Set.Ioi 11 ∈ nhdsWithin (100:ℝ) (Set.Iic 100) :=
      Filter.inter_mem self_mem_nhdsWithin
        (mem_nhdsWithin_of_mem_nhds (Ioi_mem_nhds (by norm_num)))
    rwa [Set.inter_comm, Set.Ioi_inter_Iic] at hmem
  · have hg : ContinuousWithinAt (fun v => interpolateLogScale v 100 1000 25 50)
        (Set.Ico 100 1000) 100 :=
      (interpolate_continuousAt 100 1000 25 50 (by norm_num) (by norm_num)
        100).continuousWithinAt
    have hf : ContinuousWithinAt accuracyFromGames (Set.Ico 100 1000) 100 := by
      refine hg.congr ?_ ?_
      · intro y hy
        exact accuracy_seg2 y hy.1 hy.2
      · exact accuracy_seg2 100 (le_refl _) (by norm_num)
    refine hf.mono_of_mem_nhdsWithin ?_
    have hmem : Set.Ici (100:ℝ) ∩ Set.Iio 1000 ∈ nhdsWithin (100:ℝ) (Set.Ici 100) :=
      Filter.inter_mem self_mem_nhdsWithin
        (mem_nhdsWithin_of_mem_nhds (Iio_mem_nhds (by norm_num)))
    rwa [Set.Ici_inter_Iio] at hmem

theorem accuracy_continuousAt_thousand : ContinuousAt accuracyFromGames 1000 := by
  rw [continuousAt_iff_continuous_left_right]
  constructor
  · have hg : ContinuousWithinAt (fun v => interpolateLogScale v 100 1000 25 50)
        (Set.Ioc 100 1000) 1000 :=
      (interpolate_continuousAt 100 1000 25 50 (by norm_num) (by norm_num)
        1000).continuousWithinAt
    have hf : ContinuousWithinAt accuracyFromGames (Set.Ioc 100 1000) 1000 := by
      refine hg.congr ?_ ?_
      · intro y hy
        rcases eq_or_lt_of_le hy.2 with he | hlt
        · rw [he, accuracy_at_thousand, interpolate_seg2_at_thousand]
        · exact accuracy_seg2 y (le_of_lt hy.1) hlt
      · rw [accuracy_at_thousand, interpolate_seg2_at_thousand]
    refine hf.mono_of_mem_nhdsWithin ?_
    have hmem : Set.Iic (1000:ℝ) ∩ Set.Ioi 100 ∈ nhdsWithin (1000:ℝ) (Set.Iic 1000) :=
      Filter.inter_mem self_mem_nhdsWithin
        (mem_nhdsWithin_of_mem_nhds (Ioi_mem_nhds (by norm_num)))
    rwa [Set.inter_comm, Set.Ioi_inter_Iic] at hmem
  · have hg : ContinuousWithinAt (fun v => interpolateLogScale v 1000 10000 50 100)
        (Set.Ico 1000 10000) 1000 :=
      (interpolate_continuousAt 1000 10000 50 100 (by norm_num) (by norm_num)
        1000).continuousWithinAt
    have hf : ContinuousWithinAt accuracyFromGames (Set.Ico 1000 10000) 1000 := by
      refine hg.congr ?_ ?_
      · intro y hy
        exact accuracy_seg3 y hy.1 hy.2
      · exact accuracy_seg3 1000 (le_refl _) (by norm_num)
    refine hf.mono_of_mem_nhdsWithin ?_
    have hmem : Set.Ici (1000:ℝ) ∩ Set.Iio 10000 ∈ nhdsWithin (1000:ℝ) (Set.Ici 1000) :=
      Filter.inter_mem self_mem_nhdsWithin
        (mem_nhdsWithin_of_mem_nhds (Iio_mem_nhds (by norm_num)))
    rwa [Set.Ici_inter_Iio] at hmem

theorem accuracy_continuousAt_tenThousand : ContinuousAt accuracyFromGames 10000 := by
  rw [continuousAt_iff_continuous_left_right]
  constructor
  · have hg : ContinuousWithinAt (fun v => interpolateLogScale v 1000 10000 50 100)
        (Set.Ioc 1000 10000) 10000 :=
      (interpolate_continuousAt 1000 10000 50 100 (by norm_num) (by norm_num)
        10000).continuousWithinAt
    have hf : ContinuousWithinAt accuracyFromGames (Set.Ioc 1000 10000) 10000 := by
      refine hg.congr ?_ ?_
      · intro y hy
        rcases eq_or_lt_of_le hy.2 with he | hlt
        · rw [he, accuracy_at_tenThousand, interpolate_seg3_at_tenThousand]
        · exact accuracy_seg3 y (le_of_lt hy.1) hlt
      · rw [accuracy_at_tenThousand, interpolate_seg3_at_tenThousand]
    refine hf.mono_of_mem_nhdsWithin ?_
    have hmem : Set.Iic (10000:ℝ) ∩ Set.Ioi 1000 ∈
        nhdsWithin (10000:ℝ) (Set.Iic 10000) :=
      Filter.inter_mem self_mem_nhdsWithin
        (mem_nhdsWithin_of_mem_nhds (Ioi_mem_nhds (by norm_num)))
    rwa [Set.inter_comm, Set.Ioi_inter_Iic] at hmem
  · have hconst : ContinuousWithinAt (fun _ : ℝ => (100:ℝ)) (Set.Ici 10000) 10000 :=
      continuousWithinAt_const
    refine hconst.congr ?_ ?_
    · intro y hy
      exact accuracy_top y hy
    · exact accuracy_at_tenThousand

/-- C3 (amended): `accuracyFromGames` takes exactly the values 25, 50
and 100 at the anchors 100, 1000 and 10000 and is continuous at those
anchors; it is monotonically non-decreasing on sample sizes of at least
11 and constant on sample sizes up to 10 — but not across the 10-to-11
boundary, where it drops from 1 to 0.99. -/
theorem accuracy_curve_c3 :
    (∀ x y : ℝ, 11 ≤ x → x ≤ y → accuracyFromGames x ≤ accuracyFromGames y) ∧
    (∀ x y : ℝ, x ≤ y → y ≤ 10 → accuracyFromGames x = accuracyFromGames y) ∧
    accuracyFromGames 100 = 25 ∧ accuracyFromGames 1000 = 50 ∧
    accuracyFromGames 10000 = 100 ∧
    ContinuousAt accuracyFromGames 100 ∧ ContinuousAt accuracyFromGames 1000 ∧
    ContinuousAt accuracyFromGames 10000 := by
  refine ⟨fun x y hx hxy => accuracy_mono_from_eleven hx hxy, ?_,
    accuracy_at_hundred, accuracy_at_thousand, accuracy_at_tenThousand,
    accuracy_continuousAt_hundred, accuracy_continuousAt_thousand,
    accuracy_continuousAt_tenThousand⟩
  intro x y hxy hy
  rw [accuracy_low x (le_trans hxy hy), accuracy_low y hy]

/-- Witness for C3: monotonicity applied from 11 to 12 games, and
flatness applied from 5 to 10 games. -/
theorem accuracy_curve_c3_witness :
    ((11:ℝ) ≤ 11 ∧ (11:ℝ) ≤ 12 ∧
      accuracyFromGames 11 ≤ accuracyFromGames 12) ∧
    ((5:ℝ) ≤ 10 ∧ (10:ℝ) ≤ 10 ∧ accuracyFromGames 5 = accuracyFromGames 10) :=
  ⟨⟨by norm_num, by norm_num, accuracy_curve_c3.1 11 12 (by norm_num) (by norm_num)⟩,
    ⟨by norm_num, by norm_num, accuracy_curve_c3.2.1 5 10 (by norm_num) (by norm_num)⟩⟩

/-- The Ruy Lopez preset, as listed first in the catalog. -/
def ruyLopezPreset : OpeningPreset :=
  { id := "ruy-lopez", name := "Ruy Lopez",
    description := "1. e4 e5 2. Nf3 Nc6 3. Bb5 a6",
    seedMoves := ["e2e4", "e7e5", "g1f3", "b8c6", "f1b5", "a7a6"], userColor := .w }

/-- Witness for C8: the Ruy Lopez preset is in the catalog, its first
seed token is "e2e4", and that token is already normalised. -/
theorem appended_tokens_normalized_c8_witness :
    ruyLopezPreset ∈ OPENINGS ∧ "e2e4" ∈ ruyLopezPreset.seedMoves ∧
    normalizeCastlingUci "e2e4" = "e2e4" := by
  refine ⟨by decide, by decide, ?_⟩
  exact appended_tokens_normalized_c8.2.2.2.2.2.2 ruyLopezPreset (by decide) "e2e4"
    (by decide)
